import Mathlib

/-!
Shallow embedding of the `container.js` inversion-of-control container
(`src/Container/Container.ts`, `src/Container/Aliaser.ts` and the array
helpers they use), together with proofs about the resolution engine.

Modelling conventions:
* JavaScript runtime values that flow through the container are modelled by
  the inductive type `Value`.  Class constructors and interface symbols are
  identity-compared tokens (`Value.tok`); strings compare by value
  (`Value.strV`); `Value.obj cls nonce args` is an instance created by
  `new cls(...args)` — the `nonce` is a fresh creation stamp drawn from a
  counter in the container state, so that two separately constructed objects
  are distinct values, exactly like JavaScript reference identity.
* The reflection subsystem (out of scope for the container itself) is the
  environment `Env`: a table mapping a class token to the ordered parameter
  descriptors of its constructor; tokens absent from the table are not
  instantiable (interfaces, abstract tokens, plain data).
* A "concrete" stored in the binding registry or a contextual binding is a
  `Conc`: either a plain value/identifier (`Conc.val`), the closure produced
  by `Container._getClosure` (`Conc.wrap abstract concrete`), or a
  user-supplied factory closure, modelled as a constant factory
  (`Conc.fnConst v`) — modelled factories return a value and do not mutate
  the container, which matches every use the verified claims rely on.
* Exceptions are `Err`; since a JavaScript exception leaves all prior
  mutations of the container in place, every computation returns its final
  state both on success and on error (`Res`).
* Callback invocations are recorded in an event trace (`Event`) carried by
  the dynamic state; callbacks themselves are inert tokens.  The field
  `swallowCount` counts executions of the optional-dependency fallback in
  `_resolveClass` (the `catch` branch), which is otherwise invisible.
-/

/-- A JavaScript runtime value as seen by the container. -/
inductive Value where
  | undef : Value
  | nullV : Value
  | boolV : Bool → Value
  | numV : Int → Value
  | strV : String → Value
  | tok : Nat → Value
  | obj : Nat → Nat → List Value → Value

mutual

/-- Structural (JavaScript `===`-style) equality on values. -/
def Value.beq : Value → Value → Bool
  | .undef, .undef => true
  | .nullV, .nullV => true
  | .boolV a, .boolV b => a == b
  | .numV a, .numV b => a == b
  | .strV a, .strV b => a == b
  | .tok a, .tok b => a == b
  | .obj c n as, .obj c2 n2 as2 => c == c2 && n == n2 && Value.beqList as as2
  | _, _ => false

/-- Pointwise equality on argument lists. -/
def Value.beqList : List Value → List Value → Bool
  | [], [] => true
  | a :: as, b :: bs => Value.beq a b && Value.beqList as bs
  | _, _ => false

end

/-- `Value.beq` decides propositional equality. -/
theorem Value.beq_iff : ∀ a b : Value, (Value.beq a b = true) ↔ a = b := by
  have main : ∀ a : Value, (∀ b, (Value.beq a b = true) ↔ a = b) := by
    intro a
    induction a using Value.rec
      (motive_2 := fun as => ∀ bs, (Value.beqList as bs = true) ↔ as = bs)
    case undef => intro b; cases b <;> simp [Value.beq]
    case nullV => intro b; cases b <;> simp [Value.beq]
    case boolV x => intro b; cases b <;> simp [Value.beq]
    case numV x => intro b; cases b <;> simp [Value.beq]
    case strV x => intro b; cases b <;> simp [Value.beq]
    case tok x => intro b; cases b <;> simp [Value.beq]
    case obj c n as ih =>
      intro b
      cases b <;> simp [Value.beq]
      next c2 n2 bs => rw [ih bs]; tauto
    case nil =>
      rename_i bs
      cases bs <;> simp [Value.beqList]
    case cons =>
      rename_i x xs ihx ihxs bs
      cases bs <;> simp [Value.beqList]
      next y ys => rw [ihx y, ihxs ys]
  exact main

instance : DecidableEq Value := fun a b =>
  decidable_of_iff (Value.beq a b = true) (Value.beq_iff a b)

/-- JavaScript truthiness of a value (`if (x)`). -/
def Value.truthy : Value → Bool
  | .undef => false
  | .nullV => false
  | .boolV b => b
  | .numV n => !(n == 0)
  | .strV s => !(s == "")
  | .tok _ => true
  | .obj _ _ _ => true

/-- The helper `isNullOrUndefined` from `src/Support/helpers`. -/
def Value.isNullOrUndefined : Value → Bool
  | .undef => true
  | .nullV => true
  | _ => false

/-- The `parameters` argument of `make`/`resolve`: a positional array or a
keyed object of parameter overrides. -/
inductive Params where
  | arr : List Value → Params
  | objP : List (String × Value) → Params
deriving DecidableEq

/-- `Arr.empty` from `src/Support/Arr` applied to a parameters argument. -/
def Params.empty : Params → Bool
  | .arr xs => xs.isEmpty
  | .objP kvs => kvs.isEmpty

/-- First value bound to `k` in an association list (JavaScript `Map.get`). -/
def alookup {α β : Type} [DecidableEq α] (k : α) : List (α × β) → Option β
  | [] => none
  | (k2, v) :: rest => if k = k2 then some v else alookup k rest

/-- JavaScript `Map.set`: replace the entry in place if the key exists,
otherwise append the new entry at the end (insertion order is preserved). -/
def aset {α β : Type} [DecidableEq α] (k : α) (v : β) : List (α × β) → List (α × β)
  | [] => [(k, v)]
  | (k2, v2) :: rest => if k = k2 then (k, v) :: rest else (k2, v2) :: aset k v rest

/-- JavaScript `Map.delete`. -/
def adel {α β : Type} [DecidableEq α] (k : α) : List (α × β) → List (α × β)
  | [] => []
  | (k2, v2) :: rest => if k = k2 then rest else (k2, v2) :: adel k rest

/-- The declared type of a constructor parameter, as reported by the
reflection subsystem (`ParameterDescriptor.type`). -/
inductive PType where
  | builtin : PType
  | cls : Value → PType
  | iface : Value → PType
deriving DecidableEq

/-- An ordered constructor-parameter descriptor (`ReflectionParameter`).
`value` is the declared default; `Value.undef` (or `Value.nullV`) means the
descriptor carries no usable default (`isDefaultValueAvailable`). -/
structure PDesc where
  name : String
  position : Nat
  ptype : PType
  value : Value
deriving DecidableEq

/-- `ReflectionParameter.isDefaultValueAvailable`. -/
def PDesc.isDefaultValueAvailable (p : PDesc) : Bool :=
  !(Value.isNullOrUndefined p.value)

/-- The reflection environment: constructor parameter lists per class token.
A token with no entry is not instantiable. -/
structure Env where
  classes : List (Nat × List PDesc)
deriving DecidableEq

/-- `isInstantiable` from `src/Support/helpers` applied to a value: only a
class token that the reflection environment can construct qualifies. -/
def Env.isInstantiable (env : Env) : Value → Bool
  | .tok i => (alookup i env.classes).isSome
  | _ => false

/-- A concrete as stored in the binding registry or a contextual binding. -/
inductive Conc where
  | val : Value → Conc
  | wrap : Value → Value → Conc
  | fnConst : Value → Conc
deriving DecidableEq

/-- `x instanceof Function` for a modelled concrete. -/
def Conc.isFunc : Conc → Bool
  | .val _ => false
  | .wrap _ _ => true
  | .fnConst _ => true

/-- `isInstantiable` applied to a modelled concrete: closures are plain
functions, never classes. -/
def Conc.isInstantiableC (env : Env) : Conc → Bool
  | .val v => env.isInstantiable v
  | .wrap _ _ => false
  | .fnConst _ => false

/-- JavaScript truthiness of a concrete (closures are truthy objects). -/
def Conc.truthyC : Conc → Bool
  | .val v => v.truthy
  | .wrap _ _ => true
  | .fnConst _ => true

/-- An extender callback (`extend`), modelled as a syntax of pure
decorators. -/
inductive ExtF where
  | idE : ExtF
  | constE : Value → ExtF
deriving DecidableEq

/-- Run one extender on the current object. -/
def ExtF.apply : ExtF → Value → Value
  | .idE, v => v
  | .constE w, _ => w

/-- The kind of a `BindingResolutionError` (the classes of message the code
produces with that error type). -/
inductive ResKind where
  | notInstantiable : ResKind
  | unresolvablePrimitive : ResKind
  | missingType : ResKind
deriving DecidableEq

/-- The error taxonomy of the container. `fuelOut` models exhaustion of the
JavaScript call stack by unbounded recursion (it is not one of the
container's own fault types). -/
inductive Err where
  | bindingError : Err
  | resolution : ResKind → Err
  | logicError : Err
  | entryNotFound : Err
  | fuelOut : Err
deriving DecidableEq

/-- An observable callback invocation, recorded in the trace. -/
inductive Event where
  | reboundFired : Nat → Value → Event
  | resolvingFired : Nat → Value → Event
  | afterResolvingFired : Nat → Value → Event
deriving DecidableEq

/-- The container's registries.  During resolution (`_resolve`/`build`) the
code never writes to any of these — modelled factories and callbacks are
inert — so the interpreter below takes them as a fixed context and threads
only `Dyn`. -/
structure Regs where
  bindings : List (Value × (Conc × Bool))
  aliases : List (Value × Value)
  abstractAliases : List (Value × List Value)
  contextual : List ((Value × Value) × Conc)
  tags : List (String × List Value)
  extenders : List (Value × List ExtF)
  reboundCbs : List (Value × List Nat)
  globalResolvingCbs : List Nat
  resolvingCbs : List (Value × List Nat)
  globalAfterResolvingCbs : List Nat
  afterResolvingCbs : List (Value × List Nat)
deriving DecidableEq

/-- The container state that resolution mutates: the singleton instance
cache, the resolved set, the build stack, the parameter-override stack
(`_with`), the fresh-object counter, the callback trace and the count of
faults swallowed by the optional-dependency fallback. -/
structure Dyn where
  instances : List (Value × Value)
  resolvedSet : List Value
  buildStack : List Value
  withStack : List Params
  counter : Nat
  events : List Event
  swallowCount : Nat
deriving DecidableEq

/-- Outcome of a stateful computation: JavaScript exceptions do not roll
back container mutations, so the final state is returned in both cases. -/
inductive Res (α : Type) where
  | ok : α → Dyn → Res α
  | err : Err → Dyn → Res α
deriving DecidableEq

/-- The dynamic state an outcome ends in. -/
def Res.dyn {α : Type} : Res α → Dyn
  | .ok _ d => d
  | .err _ d => d

/-- Membership in the resolved-set (a `Map<any, boolean>` whose stored value
is always `true`). -/
def smem (a : Value) : List Value → Bool
  | [] => false
  | b :: rest => if a = b then true else smem a rest

/-- `Map.set(a, true)` on the resolved-set. -/
def sinsert (a : Value) (l : List Value) : List Value :=
  if smem a l then l else l ++ [a]

/-- `Map.delete(a)` on the resolved-set. -/
def sdel (a : Value) : List Value → List Value
  | [] => []
  | b :: rest => if a = b then rest else b :: sdel a rest

/-- `Container.getAlias`, fuelled: follow alias edges to a fixed point.  A
one-hop self-alias raises a `LogicError`; running out of fuel models the
unbounded recursion of the source on a deeper alias cycle. -/
def getAliasF (aliases : List (Value × Value)) : Nat → Value → Except Err Value
  | 0, _ => .error .fuelOut
  | n + 1, a =>
    match alookup a aliases with
    | none => .ok a
    | some b => if b = a then .error .logicError else getAliasF aliases n b

namespace Container

/-- `Container.getAlias` with fuel sufficient for any acyclic alias graph
(one more than the number of alias edges). -/
def getAliasE (regs : Regs) (a : Value) : Except Err Value :=
  getAliasF regs.aliases (regs.aliases.length + 1) a

/-- `Container.isAlias`. -/
def isAliasB (regs : Regs) (a : Value) : Bool :=
  (alookup a regs.aliases).isSome

/-- `Container.bound`. -/
def boundB (regs : Regs) (d : Dyn) (a : Value) : Bool :=
  (alookup a regs.bindings).isSome || (alookup a d.instances).isSome
    || isAliasB regs a

/-- `Container.has` (the PSR-11 style accessor) delegates to `bound`. -/
def hasB (regs : Regs) (d : Dyn) (a : Value) : Bool :=
  boundB regs d a

/-- `Container.isShared`: a cached instance exists or the binding record is
marked shared. -/
def isSharedB (regs : Regs) (d : Dyn) (a : Value) : Bool :=
  (alookup a d.instances).isSome
    || (match alookup a regs.bindings with
        | some (_, sh) => sh
        | none => false)

/-- `Container.resolved`: canonicalize through the alias map when the
identifier is an alias (which can raise), then consult the resolved-set and
the instance cache. -/
def resolvedE (regs : Regs) (d : Dyn) (abstract : Value) : Except Err Bool :=
  match (if isAliasB regs abstract then getAliasE regs abstract
         else .ok abstract) with
  | .error e => .error e
  | .ok a2 => .ok (smem a2 d.resolvedSet || (alookup a2 d.instances).isSome)

/-- `Container._getLastParameterOverride`. -/
def lastParamOverride (d : Dyn) : Params :=
  match d.withStack.getLast? with
  | some p => p
  | none => Params.arr []

/-- `Container._hasParameterOverride`: positional arrays never act as named
overrides. -/
def hasParamOverride (d : Dyn) (name : String) : Bool :=
  match lastParamOverride d with
  | .arr _ => false
  | .objP kvs => (alookup name kvs).isSome

/-- `Container._getParameterOverride`. -/
def getParamOverride (d : Dyn) (name : String) : Value :=
  match lastParamOverride d with
  | .arr _ => Value.undef
  | .objP kvs =>
    match alookup name kvs with
    | some v => v
    | none => Value.undef

/-- `Container._findInContextualBindings`: look up the pair (top of the
build stack, abstract); with an empty build stack the anchor is `undefined`
and can never match a registered entry. -/
def findInCtx (regs : Regs) (d : Dyn) (a : Value) : Option Conc :=
  match d.buildStack.getLast? with
  | none => none
  | some anchor => alookup (anchor, a) regs.contextual

/-- The reverse-alias scan inside `Container._getContextualConcrete`. -/
def findAliasCtx (regs : Regs) (d : Dyn) : List Value → Option Conc
  | [] => none
  | al :: rest =>
    match findInCtx regs d al with
    | some b => some b
    | none => findAliasCtx regs d rest

/-- `Container._getContextualConcrete`: direct hit first, then each
registered reverse alias of the abstract in registration order. -/
def getCtxConcrete (regs : Regs) (d : Dyn) (a : Value) : Option Conc :=
  match findInCtx regs d a with
  | some b => some b
  | none =>
    match alookup a regs.abstractAliases with
    | none => none
    | some als => findAliasCtx regs d als

/-- `Container._getConcrete`: contextual override, else binding record, else
the abstract itself. -/
def getConcrete (regs : Regs) (d : Dyn) (a : Value) : Conc :=
  match getCtxConcrete regs d a with
  | some c => c
  | none =>
    match alookup a regs.bindings with
    | some (c, _) => c
    | none => Conc.val a

/-- `Container._isBuildable`: the concrete equals the abstract, or it is a
plain (non-class) function. -/
def isBuildable (env : Env) (c : Conc) (a : Value) : Bool :=
  (match c with
   | .val v => v = a
   | _ => false)
  || (!(c.isInstantiableC env) && c.isFunc)

/-- `Container._getExtenders` (which canonicalizes its argument again). -/
def getExtendersE (regs : Regs) (a : Value) : Except Err (List ExtF) :=
  match getAliasE regs a with
  | .error e => .error e
  | .ok a2 =>
    match alookup a2 regs.extenders with
    | some l => .ok l
    | none => .ok []

/-- `object instanceof type` for a modelled object and a class token (the
model has no inheritance). -/
def isInstanceOf (v t : Value) : Bool :=
  match v, t with
  | .obj c _ _, .tok i => c == i
  | _, _ => false

/-- `Container._fireCallbackArray`, as trace events. -/
def fireArray (mkEv : Nat → Value → Event) (cbs : List Nat) (v : Value)
    (evs : List Event) : List Event :=
  evs ++ cbs.map (fun c => mkEv c v)

/-- One `forEach` pass over a per-type callback registry: a group fires when
its key is the canonical abstract or the object is an instance of the key. -/
def fireTyped (mkEv : Nat → Value → Event) (canon v : Value) :
    List (Value × List Nat) → List Event
  | [] => []
  | (ty, cbs) :: rest =>
    (if ty = canon || isInstanceOf v ty then cbs.map (fun c => mkEv c v)
     else [])
      ++ fireTyped mkEv canon v rest

/-- `Container._fireResolvingCallbacks` (which ends by firing the
after-resolving callbacks): global resolving, per-type resolving, global
after-resolving, per-type after-resolving, in source order. -/
def fireResolvingD (regs : Regs) (canon v : Value) (d : Dyn) : Dyn :=
  let e1 := fireArray Event.resolvingFired regs.globalResolvingCbs v d.events
  let e2 := e1 ++ fireTyped Event.resolvingFired canon v regs.resolvingCbs
  let e3 := fireArray Event.afterResolvingFired regs.globalAfterResolvingCbs v e2
  let e4 := e3 ++ fireTyped Event.afterResolvingFired canon v regs.afterResolvingCbs
  { d with events := e4 }

end Container

/-- The state owned by the standalone `Aliaser` component
(`src/Container/Aliaser.ts`). -/
structure AliaserSt where
  aliases : List (Value × Value)
  abstractAliases : List (Value × List Value)
deriving DecidableEq

namespace Aliaser

/-- `Aliaser.alias`: rejects a direct self-alias at registration time with a
`LogicError`, otherwise records the edge and the reverse-index entry. -/
def aliasOp (st : AliaserSt) (abstract al : Value) : Except Err AliaserSt :=
  if al = abstract then .error .logicError
  else
    .ok { aliases := aset al abstract st.aliases,
          abstractAliases :=
            match alookup abstract st.abstractAliases with
            | some arr => aset abstract (arr ++ [al]) st.abstractAliases
            | none => aset abstract [al] st.abstractAliases }

end Aliaser

/-- The type of the `make` continuation handed to the engine's helpers: a
nested `container.make(abstract, parameters)` call (one JavaScript stack
frame deeper, hence one fuel unit fewer). -/
def MkT : Type := Value → Params → Dyn → Res Value

/-- The type of the `build` continuation: a nested `container.build(cls)`
call on a class value. -/
def BkT : Type := Value → Dyn → Res Value

namespace Container

/-- Invoking a contextual implementation found for a primitive parameter:
`concrete instanceof Function ? concrete(this) : concrete`.  A
`_getClosure` wrapper invoked with one argument receives the defaulted
(empty) parameters. -/
def applyPrimCtx (mk : MkT) (bk : BkT) (c : Conc) (d : Dyn) : Res Value :=
  match c with
  | .fnConst v => .ok v d
  | .wrap a c2 => if a = c2 then bk c2 d else mk c2 (Params.objP []) d
  | .val v => .ok v d

/-- `Container._resolvePrimitive`: a truthy contextual entry keyed by the
parameter name wins (invoked if it is a function); else the descriptor's
available default; else an unresolvable-primitive fault. -/
def resolvePrimitiveF (regs : Regs) (mk : MkT) (bk : BkT) (p : PDesc)
    (d : Dyn) : Res Value :=
  let fallback : Res Value :=
    if p.isDefaultValueAvailable then .ok p.value d
    else .err (.resolution .unresolvablePrimitive) d
  match getCtxConcrete regs d (Value.strV p.name) with
  | some c => if c.truthyC then applyPrimCtx mk bk c d else fallback
  | none => fallback

/-- The `catch` of `Container._resolveClass`: a `BindingResolutionError` of
any kind is swallowed — and replaced by the descriptor's default — exactly
when the descriptor has one; every other error is re-thrown. -/
def catchResolution (p : PDesc) (r : Res Value) : Res Value :=
  match r with
  | .ok v d2 => .ok v d2
  | .err (.resolution k) d2 =>
    if p.isDefaultValueAvailable then
      .ok p.value { d2 with swallowCount := d2.swallowCount + 1 }
    else .err (.resolution k) d2
  | .err e d2 => .err e d2

/-- `Container._resolveClass`: resolve the declared class (or the
interface's designated key) through a nested `make`, guarded by the
optional-dependency `catch`. -/
def resolveClassF (mk : MkT) (p : PDesc) (d : Dyn) : Res Value :=
  match p.ptype with
  | .builtin => .err (.resolution .missingType) d
  | .cls t => catchResolution p (mk t (Params.arr []) d)
  | .iface key => catchResolution p (mk key (Params.arr []) d)

/-- One iteration of the loop in `Container._resolveDependencies`: a named
override from the current frame wins verbatim (skipping reflection); else
primitives and class types are resolved by their own routines. -/
def depOne (regs : Regs) (mk : MkT) (bk : BkT) (dep : PDesc) (d : Dyn) :
    Res Value :=
  if hasParamOverride d dep.name then .ok (getParamOverride d dep.name) d
  else
    match dep.ptype with
    | .builtin => resolvePrimitiveF regs mk bk dep d
    | _ => resolveClassF mk dep d

/-- `Container._resolveDependencies`: per descriptor in order, collecting
the results positionally. -/
def resolveDepsF (regs : Regs) (mk : MkT) (bk : BkT) :
    List PDesc → Dyn → Res (List Value)
  | [], d => .ok [] d
  | dep :: rest, d =>
    match depOne regs mk bk dep d with
    | .err e d2 => .err e d2
    | .ok v d2 =>
      match resolveDepsF regs mk bk rest d2 with
      | .err e d3 => .err e d3
      | .ok vs d3 => .ok (v :: vs) d3

/-- The reflection part of `Container.build` on a class value: fail
not-instantiable when the token has no constructor, push the concrete on
the build stack, resolve the dependencies, pop (only on the success path —
the source has no try/finally) and instantiate a fresh object. -/
def buildCoreF (env : Env) (regs : Regs) (mk : MkT) (bk : BkT) (v : Value)
    (d : Dyn) : Res Value :=
  match v with
  | .tok i =>
    match alookup i env.classes with
    | none => .err (.resolution .notInstantiable) d
    | some ps =>
      let d1 := { d with buildStack := d.buildStack ++ [v] }
      if ps.isEmpty then
        .ok (Value.obj i d1.counter [])
          { d1 with buildStack := d1.buildStack.dropLast,
                    counter := d1.counter + 1 }
      else
        match resolveDepsF regs mk bk ps d1 with
        | .err e d2 => .err e d2
        | .ok vs d2 =>
          .ok (Value.obj i d2.counter vs)
            { d2 with buildStack := d2.buildStack.dropLast,
                      counter := d2.counter + 1 }
  | _ => .err (.resolution .notInstantiable) d

/-- `Container.build`: a plain (non-class) function concrete is invoked with
the container and the current parameter override frame — for a
`_getClosure` wrapper this builds the class when it wraps a self-binding
and otherwise re-enters `make` with the frame's parameters; a class value
goes through reflection. -/
def buildF (env : Env) (regs : Regs) (mk : MkT) (bk : BkT) (c : Conc)
    (d : Dyn) : Res Value :=
  match c with
  | .fnConst v => .ok v d
  | .wrap a c2 =>
    if a = c2 then buildCoreF env regs mk bk c2 d
    else mk c2 (lastParamOverride d) d
  | .val v => buildCoreF env regs mk bk v d

/-- The `needsContextualBuild` test of `Container._resolve`: explicit
parameters were given, or a (truthy) contextual concrete exists for the
canonical abstract at the current anchor. -/
def needsCtxB (regs : Regs) (d : Dyn) (canon : Value) (p : Params) : Bool :=
  !p.empty
    || (match getCtxConcrete regs d canon with
        | some c => c.truthyC
        | none => false)

/-- The dispatch of `Container._resolve` on the concrete: `_isBuildable`
concretes go to `build`, a binding that points at another abstract
re-enters `make` (with no parameters). -/
def runConcrete (env : Env) (regs : Regs) (mk : MkT) (bk : BkT)
    (canon : Value) (conc : Conc) (d1 : Dyn) : Res Value :=
  match conc with
  | .val v2 =>
    if v2 = canon then buildF env regs mk bk (.val v2) d1
    else mk v2 (Params.arr []) d1
  | c2 => buildF env regs mk bk c2 d1

/-- The tail of `Container._resolve` after a successful build: apply the
extender chain, cache when shared and not a contextual build, fire the
resolving callbacks, mark the abstract resolved and pop the override
frame. -/
def finishResolve (regs : Regs) (canon : Value) (needsCtx : Bool)
    (object : Value) (d2 : Dyn) : Res Value :=
  match getExtendersE regs canon with
  | .error e => .err e d2
  | .ok exts =>
    let object2 := exts.foldl (fun acc f => f.apply acc) object
    let d3 :=
      if isSharedB regs d2 canon && !needsCtx then
        { d2 with instances := aset canon object2 d2.instances }
      else d2
    let d4 := fireResolvingD regs canon object2 d3
    .ok object2 { d4 with resolvedSet := sinsert canon d4.resolvedSet,
                          withStack := d4.withStack.dropLast }

/-- `Container._resolve`: canonicalize, decide whether a contextual build is
needed, serve the singleton fast path, push the parameter frame, build or
re-enter `make` on the concrete, and finish (extend, cache, fire, mark,
pop). -/
def resolveStep (env : Env) (regs : Regs) (mk : MkT) (bk : BkT)
    (abstract : Value) (p : Params) (d : Dyn) : Res Value :=
  match getAliasE regs abstract with
  | .error e => .err e d
  | .ok canon =>
    match alookup canon d.instances, needsCtxB regs d canon p with
    | some v, false => .ok v d
    | _, _ =>
      let d1 := { d with withStack := d.withStack ++ [p] }
      match runConcrete env regs mk bk canon (getConcrete regs d1 canon) d1 with
      | .err e d2 => .err e d2
      | .ok object d2 => finishResolve regs canon (needsCtxB regs d canon p) object d2

/-- The fuelled engine: `.inl (a, p)` runs `container.make(a, p)` (that is,
`_resolve`), `.inr v` runs `container.build(v)` on a class value.  Each
nested call consumes one unit of fuel, modelling a JavaScript stack
frame. -/
def runF (env : Env) (regs : Regs) : Nat → ((Value × Params) ⊕ Value) →
    Dyn → Res Value
  | 0, _, d => .err .fuelOut d
  | n + 1, .inl (a, p), d =>
    resolveStep env regs (fun a2 p2 => runF env regs n (.inl (a2, p2)))
      (fun v2 => runF env regs n (.inr v2)) a p d
  | n + 1, .inr v, d =>
    buildCoreF env regs (fun a2 p2 => runF env regs n (.inl (a2, p2)))
      (fun v2 => runF env regs n (.inr v2)) v d

/-- `Container.make` / `Container._resolve` at the given fuel. -/
def resolve (env : Env) (regs : Regs) (n : Nat) (a : Value) (p : Params)
    (d : Dyn) : Res Value :=
  runF env regs n (.inl (a, p)) d

/-- `Container.make` with the parameters argument defaulted to `[]`. -/
def make (env : Env) (regs : Regs) (n : Nat) (a : Value) (d : Dyn) :
    Res Value :=
  resolve env regs n a (Params.arr []) d

end Container

/-- Outcome of a registration-level operation, which may update the
registries as well as the dynamic state. -/
inductive OpRes (α : Type) where
  | ok : α → Regs → Dyn → OpRes α
  | err : Err → Regs → Dyn → OpRes α
deriving DecidableEq

namespace Container

/-- `Container._rebound`: re-make the abstract and invoke every registered
rebound callback with the container and the new instance. -/
def reboundRun (env : Env) (regs : Regs) (n : Nat) (abstract : Value)
    (d : Dyn) : Res Value :=
  match resolve env regs n abstract (Params.arr []) d with
  | .err e d2 => .err e d2
  | .ok v d2 =>
    let cbs :=
      match alookup abstract regs.reboundCbs with
      | some l => l
      | none => []
    .ok v { d2 with events := d2.events ++ cbs.map (fun c => Event.reboundFired c v) }

/-- `Container.bind`: drop the stale instance and alias, default an omitted
concrete to the abstract when the abstract is constructible (else fail with
a `BindingError`), wrap a class concrete in the `_getClosure` closure,
store the record, and fire the rebound listeners when the abstract was
already resolved. -/
def bindOp (env : Env) (n : Nat) (regs : Regs) (d : Dyn) (abstract : Value)
    (concrete : Option Conc) (shared : Bool) : OpRes Unit :=
  let d1 := { d with instances := adel abstract d.instances }
  let regs1 := { regs with aliases := adel abstract regs.aliases }
  let store : Conc → OpRes Unit := fun c =>
    let c2 :=
      if c.isInstantiableC env then
        match c with
        | .val v => Conc.wrap abstract v
        | x => x
      else c
    let regs2 := { regs1 with bindings := aset abstract (c2, shared) regs1.bindings }
    match resolvedE regs2 d1 abstract with
    | .error e => .err e regs2 d1
    | .ok true =>
      match reboundRun env regs2 n abstract d1 with
      | .ok _ d2 => .ok () regs2 d2
      | .err e d2 => .err e regs2 d2
    | .ok false => .ok () regs2 d1
  match concrete with
  | none =>
    if env.isInstantiable abstract then store (Conc.val abstract)
    else .err .bindingError regs1 d1
  | some c => store c

/-- `Container.singleton` = `bind` with the shared flag set. -/
def singletonOp (env : Env) (n : Nat) (regs : Regs) (d : Dyn)
    (abstract : Value) (concrete : Option Conc) : OpRes Unit :=
  bindOp env n regs d abstract concrete true

/-- `Container.unbind`: delete the binding record, the cached instance and
the resolved flag — and nothing else. -/
def unbindOp (regs : Regs) (d : Dyn) (abstract : Value) : Regs × Dyn :=
  ({ regs with bindings := adel abstract regs.bindings },
   { d with instances := adel abstract d.instances,
            resolvedSet := sdel abstract d.resolvedSet })

/-- `Container.alias` (the facade): record the edge and the reverse-index
entry.  Note that, unlike `Aliaser.alias`, this method performs no
self-alias check. -/
def aliasOp (regs : Regs) (abstract al : Value) : Regs :=
  { regs with
    aliases := aset al abstract regs.aliases,
    abstractAliases :=
      match alookup abstract regs.abstractAliases with
      | some arr => aset abstract (arr ++ [al]) regs.abstractAliases
      | none => aset abstract [al] regs.abstractAliases }

/-- `Container.tag`: ensure a (possibly empty) member list per tag, then
append every given abstract in order. -/
def tagOp (regs : Regs) (abstracts : List Value) (ts : List String) : Regs :=
  ts.foldl
    (fun r t =>
      let cur :=
        match alookup t r.tags with
        | some l => l
        | none => []
      { r with tags := aset t (cur ++ abstracts) r.tags })
    regs

/-- The member loop of `Container.tagged`: `make` each tagged abstract in
registration order, collecting the results. -/
def taggedList (env : Env) (regs : Regs) (n : Nat) :
    List Value → Dyn → Res (List Value)
  | [], d => .ok [] d
  | a :: rest, d =>
    match resolve env regs n a (Params.arr []) d with
    | .err e d2 => .err e d2
    | .ok v d2 =>
      match taggedList env regs n rest d2 with
      | .err e d3 => .err e d3
      | .ok vs d3 => .ok (v :: vs) d3

/-- `Container.tagged`: an unregistered tag yields the empty list. -/
def taggedF (env : Env) (regs : Regs) (n : Nat) (t : String) (d : Dyn) :
    Res (List Value) :=
  match alookup t regs.tags with
  | none => .ok [] d
  | some as => taggedList env regs n as d

/-- `Container.rebinding`: canonicalize, append the callback to the
abstract's rebound list, and — when the abstract is already bound — resolve
it immediately, returning the instance. -/
def rebindingOp (env : Env) (n : Nat) (regs : Regs) (d : Dyn)
    (abstract : Value) (cb : Nat) : OpRes (Option Value) :=
  match getAliasE regs abstract with
  | .error e => .err e regs d
  | .ok canon =>
    let cur :=
      match alookup canon regs.reboundCbs with
      | some l => l
      | none => []
    let regs2 := { regs with reboundCbs := aset canon (cur ++ [cb]) regs.reboundCbs }
    if boundB regs2 d canon then
      match resolve env regs2 n canon (Params.arr []) d with
      | .ok v d2 => .ok (some v) regs2 d2
      | .err e d2 => .err e regs2 d2
    else .ok none regs2 d

/-- `Container.addContextualBinding`: key the implementation by the anchor
concrete and the canonicalized abstract. -/
def addCtxOp (regs : Regs) (concrete abstract : Value) (impl : Conc) :
    Except Err Regs :=
  match getAliasE regs abstract with
  | .error e => .error e
  | .ok a2 => .ok { regs with contextual := aset (concrete, a2) impl regs.contextual }

end Container

/-- The empty container: every registry and all dynamic state empty. -/
def Regs.empty : Regs :=
  ⟨[], [], [], [], [], [], [], [], [], [], []⟩

/-- The initial dynamic state. -/
def Dyn.empty : Dyn :=
  ⟨[], [], [], [], 0, [], 0⟩

/-- Keys of an association list are pairwise distinct (a JavaScript `Map`
representation invariant). -/
def keysNodup {α β : Type} [DecidableEq α] : List (α × β) → Bool
  | [] => true
  | (k, _) :: rest => !(alookup k rest).isSome && keysNodup rest

theorem alookup_aset_self {α β : Type} [DecidableEq α] (k : α) (v : β) :
    ∀ l : List (α × β), alookup k (aset k v l) = some v := by
  intro l
  induction l with
  | nil => simp [aset, alookup]
  | cons h t ih =>
    obtain ⟨k2, v2⟩ := h
    by_cases hk : k = k2 <;> simp [aset, alookup, hk, ih]

theorem alookup_aset_ne {α β : Type} [DecidableEq α] (k k2 : α) (v : β)
    (hne : k2 ≠ k) : ∀ l : List (α × β), alookup k2 (aset k v l) = alookup k2 l := by
  intro l
  induction l with
  | nil => simp [aset, alookup, hne]
  | cons h t ih =>
    obtain ⟨k3, v3⟩ := h
    by_cases hk : k = k3
    · subst hk
      simp [aset, alookup, hne]
    · by_cases hk2 : k2 = k3 <;> simp [aset, alookup, hk, hk2, ih]

theorem alookup_adel_ne {α β : Type} [DecidableEq α] (k k2 : α)
    (hne : k2 ≠ k) : ∀ l : List (α × β), alookup k2 (adel k l) = alookup k2 l := by
  intro l
  induction l with
  | nil => simp [adel]
  | cons h t ih =>
    obtain ⟨k3, v3⟩ := h
    by_cases hk : k = k3
    · subst hk
      simp [adel, alookup, hne]
    · by_cases hk2 : k2 = k3 <;> simp [adel, alookup, hk, hk2, ih]

theorem alookup_adel_self {α β : Type} [DecidableEq α] (k : α) :
    ∀ l : List (α × β), keysNodup l = true → alookup k (adel k l) = none := by
  intro l
  induction l with
  | nil => simp [adel, alookup]
  | cons h t ih =>
    obtain ⟨k2, v2⟩ := h
    intro hnd
    simp [keysNodup] at hnd
    by_cases hk : k = k2
    · subst hk
      simpa [adel, Option.isSome_iff_exists] using hnd.1
    · simp [adel, alookup, hk, ih hnd.2]

theorem smem_sdel_ne (a b : Value) (hne : b ≠ a) :
    ∀ l : List Value, smem b (sdel a l) = smem b l := by
  intro l
  induction l with
  | nil => simp [sdel]
  | cons c t ih =>
    by_cases hc : a = c
    · subst hc
      simp [sdel, smem, hne]
    · by_cases hb : b = c <;> simp [sdel, smem, hc, hb, ih]

/-- Pairwise distinctness of the resolved-set entries. -/
def setNodup : List Value → Bool
  | [] => true
  | a :: rest => !(smem a rest) && setNodup rest

theorem smem_sdel_self (a : Value) :
    ∀ l : List Value, setNodup l = true → smem a (sdel a l) = false := by
  intro l
  induction l with
  | nil => simp [sdel, smem]
  | cons c t ih =>
    intro hnd
    simp [setNodup] at hnd
    by_cases hc : a = c
    · subst hc
      simpa [sdel] using hnd.1
    · simp [sdel, smem, hc, ih hnd.2]

/-- A successful canonicalization ends at an identifier with no outgoing
alias edge. -/
theorem getAliasF_fix (al : List (Value × Value)) :
    ∀ (n : Nat) (x r : Value), getAliasF al n x = .ok r →
      alookup r al = none := by
  intro n
  induction n with
  | zero => intro x r h; simp [getAliasF] at h
  | succ m ih =>
    intro x r h
    simp only [getAliasF] at h
    match hx : alookup x al with
    | none =>
      rw [hx] at h
      cases h
      exact hx
    | some b =>
      rw [hx] at h
      by_cases hb : b = x
      · simp [hb] at h
      · simp only [hb, if_false] at h
        exact ih b r h

/-- Canonicalization of an identifier with no outgoing edge is immediate. -/
theorem getAliasE_notAliased (regs : Regs) (a : Value)
    (h : alookup a regs.aliases = none) :
    Container.getAliasE regs a = .ok a := by
  simp [Container.getAliasE, getAliasF, h]

/-- A successful canonicalization is idempotent. -/
theorem getAliasE_idem (regs : Regs) (x r : Value)
    (h : Container.getAliasE regs x = .ok r) :
    Container.getAliasE regs r = .ok r :=
  getAliasE_notAliased regs r (getAliasF_fix regs.aliases _ x r h)

/-- The fresh-object counter and the swallow counter never decrease. -/
def MonoRes {α : Type} (d : Dyn) (r : Res α) : Prop :=
  d.counter ≤ r.dyn.counter ∧ d.swallowCount ≤ r.dyn.swallowCount

/-- Monotonicity of a `make` continuation. -/
def MkMono (mk : MkT) : Prop := ∀ a p d, MonoRes d (mk a p d)

/-- Monotonicity of a `build` continuation. -/
def BkMono (bk : BkT) : Prop := ∀ v d, MonoRes d (bk v d)

theorem monoRes_refl_ok {α : Type} (d : Dyn) (a : α) : MonoRes d (.ok a d) :=
  ⟨le_refl _, le_refl _⟩

theorem monoRes_refl_err {α : Type} (d : Dyn) (e : Err) :
    MonoRes d (.err e d : Res α) :=
  ⟨le_refl _, le_refl _⟩

theorem mono_applyPrimCtx (mk : MkT) (bk : BkT) (hmk : MkMono mk)
    (hbk : BkMono bk) (c : Conc) (d : Dyn) :
    MonoRes d (Container.applyPrimCtx mk bk c d) := by
  cases c with
  | fnConst v => exact monoRes_refl_ok d v
  | val v => exact monoRes_refl_ok d v
  | wrap a c2 =>
    simp only [Container.applyPrimCtx]
    by_cases h : a = c2
    · simpa [h] using hbk c2 d
    · simpa [h] using hmk c2 (Params.objP []) d

theorem mono_resolvePrimitiveF (regs : Regs) (mk : MkT) (bk : BkT)
    (hmk : MkMono mk) (hbk : BkMono bk) (p : PDesc) (d : Dyn) :
    MonoRes d (Container.resolvePrimitiveF regs mk bk p d) := by
  simp only [Container.resolvePrimitiveF]
  have hfall : MonoRes d
      (if p.isDefaultValueAvailable then Res.ok p.value d
       else Res.err (.resolution .unresolvablePrimitive) d) := by
    by_cases hd : p.isDefaultValueAvailable = true
    · simpa [hd] using monoRes_refl_ok d p.value
    · simp only [Bool.not_eq_true] at hd
      simpa [hd] using monoRes_refl_err d (.resolution .unresolvablePrimitive)
  match hc : Container.getCtxConcrete regs d (Value.strV p.name) with
  | some c =>
    by_cases ht : c.truthyC = true
    · simpa [hc, ht] using mono_applyPrimCtx mk bk hmk hbk c d
    · simp only [Bool.not_eq_true] at ht
      simpa [hc, ht] using hfall
  | none => simpa [hc] using hfall

theorem mono_catchResolution (p : PDesc) (d : Dyn) (r : Res Value)
    (h : MonoRes d r) : MonoRes d (Container.catchResolution p r) := by
  match r with
  | .ok v d2 => simpa [Container.catchResolution] using h
  | .err (.resolution k) d2 =>
    obtain ⟨h1, h2⟩ := h
    by_cases hd : p.isDefaultValueAvailable = true
    · simp only [Container.catchResolution, hd, if_true]
      exact ⟨h1, Nat.le_succ_of_le h2⟩
    · simp only [Bool.not_eq_true] at hd
      simp only [Container.catchResolution, hd, Bool.false_eq_true, if_false]
      exact ⟨h1, h2⟩
  | .err .bindingError d2 => simpa [Container.catchResolution] using h
  | .err .logicError d2 => simpa [Container.catchResolution] using h
  | .err .entryNotFound d2 => simpa [Container.catchResolution] using h
  | .err .fuelOut d2 => simpa [Container.catchResolution] using h

theorem mono_resolveClassF (mk : MkT) (hmk : MkMono mk) (p : PDesc) (d : Dyn) :
    MonoRes d (Container.resolveClassF mk p d) := by
  cases hp : p.ptype with
  | builtin => simpa [Container.resolveClassF, hp] using
      monoRes_refl_err d (.resolution .missingType)
  | cls t =>
    simp only [Container.resolveClassF, hp]
    exact mono_catchResolution p d _ (hmk t (Params.arr []) d)
  | iface key =>
    simp only [Container.resolveClassF, hp]
    exact mono_catchResolution p d _ (hmk key (Params.arr []) d)

theorem mono_depOne (regs : Regs) (mk : MkT) (bk : BkT) (hmk : MkMono mk)
    (hbk : BkMono bk) (dep : PDesc) (d : Dyn) :
    MonoRes d (Container.depOne regs mk bk dep d) := by
  simp only [Container.depOne]
  by_cases h : Container.hasParamOverride d dep.name = true
  · simpa [h] using monoRes_refl_ok d (Container.getParamOverride d dep.name)
  · simp only [Bool.not_eq_true] at h
    simp only [h, Bool.false_eq_true, if_false]
    cases dep.ptype with
    | builtin => exact mono_resolvePrimitiveF regs mk bk hmk hbk dep d
    | cls t => exact mono_resolveClassF mk hmk dep d
    | iface key => exact mono_resolveClassF mk hmk dep d

theorem mono_bindRes {α β : Type} (d : Dyn) (r : Res α) (f : α → Dyn → Res β)
    (h1 : MonoRes d r) (h2 : ∀ a d2, MonoRes d2 (f a d2)) :
    MonoRes d (match r with | .ok a d2 => f a d2 | .err e d2 => .err e d2) := by
  match r with
  | .ok a d2 => exact ⟨le_trans h1.1 (h2 a d2).1, le_trans h1.2 (h2 a d2).2⟩
  | .err e d2 => exact h1

theorem mono_resolveDepsF (regs : Regs) (mk : MkT) (bk : BkT) (hmk : MkMono mk)
    (hbk : BkMono bk) : ∀ (ps : List PDesc) (d : Dyn),
    MonoRes d (Container.resolveDepsF regs mk bk ps d) := by
  intro ps
  induction ps with
  | nil => intro d; exact monoRes_refl_ok d []
  | cons dep rest ih =>
    intro d
    have h1 := mono_depOne regs mk bk hmk hbk dep d
    simp only [Container.resolveDepsF]
    split
    next e d2 heq =>
      rw [heq] at h1
      exact h1
    next v d2 heq =>
      rw [heq] at h1
      have h2 := ih d2
      split
      next e d3 heq2 =>
        rw [heq2] at h2
        exact ⟨le_trans h1.1 h2.1, le_trans h1.2 h2.2⟩
      next vs d3 heq2 =>
        rw [heq2] at h2
        exact ⟨le_trans h1.1 h2.1, le_trans h1.2 h2.2⟩

theorem mono_buildCoreF (env : Env) (regs : Regs) (mk : MkT) (bk : BkT)
    (hmk : MkMono mk) (hbk : BkMono bk) (v : Value) (d : Dyn) :
    MonoRes d (Container.buildCoreF env regs mk bk v d) := by
  cases v with
  | tok i =>
    simp only [Container.buildCoreF]
    match hc : alookup i env.classes with
    | none => exact monoRes_refl_err d (.resolution .notInstantiable)
    | some ps =>
      by_cases hps : ps.isEmpty = true
      · simp only [hps, if_true]
        exact ⟨Nat.le_succ _, le_refl _⟩
      · simp only [Bool.not_eq_true] at hps
        simp only [hps, Bool.false_eq_true, if_false]
        have h2 := mono_resolveDepsF regs mk bk hmk hbk ps
          { d with buildStack := d.buildStack ++ [Value.tok i] }
        match hr : Container.resolveDepsF regs mk bk ps
            { d with buildStack := d.buildStack ++ [Value.tok i] } with
        | .err e d2 =>
          rw [hr] at h2
          exact h2
        | .ok vs d2 =>
          rw [hr] at h2
          exact ⟨Nat.le_succ_of_le h2.1, h2.2⟩
  | undef => exact monoRes_refl_err d (.resolution .notInstantiable)
  | nullV => exact monoRes_refl_err d (.resolution .notInstantiable)
  | boolV b => exact monoRes_refl_err d (.resolution .notInstantiable)
  | numV n => exact monoRes_refl_err d (.resolution .notInstantiable)
  | strV s => exact monoRes_refl_err d (.resolution .notInstantiable)
  | obj c n as => exact monoRes_refl_err d (.resolution .notInstantiable)

theorem mono_buildF (env : Env) (regs : Regs) (mk : MkT) (bk : BkT)
    (hmk : MkMono mk) (hbk : BkMono bk) (c : Conc) (d : Dyn) :
    MonoRes d (Container.buildF env regs mk bk c d) := by
  cases c with
  | fnConst v => exact monoRes_refl_ok d v
  | val v => exact mono_buildCoreF env regs mk bk hmk hbk v d
  | wrap a c2 =>
    simp only [Container.buildF]
    by_cases h : a = c2
    · simpa [h] using mono_buildCoreF env regs mk bk hmk hbk c2 d
    · simpa [h] using hmk c2 (Container.lastParamOverride d) d

theorem mono_runConcrete (env : Env) (regs : Regs) (mk : MkT) (bk : BkT)
    (hmk : MkMono mk) (hbk : BkMono bk) (canon : Value) (conc : Conc)
    (d : Dyn) : MonoRes d (Container.runConcrete env regs mk bk canon conc d) := by
  cases conc with
  | val v2 =>
    simp only [Container.runConcrete]
    by_cases h : v2 = canon
    · simpa [h] using mono_buildF env regs mk bk hmk hbk (.val v2) d
    · simpa [h] using hmk v2 (Params.arr []) d
  | wrap a c2 => exact mono_buildF env regs mk bk hmk hbk (.wrap a c2) d
  | fnConst v => exact mono_buildF env regs mk bk hmk hbk (.fnConst v) d

theorem mono_finishResolve (regs : Regs) (canon : Value) (needsCtx : Bool)
    (object : Value) (d2 : Dyn) :
    MonoRes d2 (Container.finishResolve regs canon needsCtx object d2) := by
  simp only [Container.finishResolve]
  match hx : Container.getExtendersE regs canon with
  | .error e => exact monoRes_refl_err d2 e
  | .ok exts =>
    by_cases hs : (Container.isSharedB regs d2 canon && !needsCtx) = true <;>
      simp [hs, Container.fireResolvingD, MonoRes, Res.dyn]

theorem mono_resolveStep (env : Env) (regs : Regs) (mk : MkT) (bk : BkT)
    (hmk : MkMono mk) (hbk : BkMono bk) (abstract : Value) (p : Params)
    (d : Dyn) : MonoRes d (Container.resolveStep env regs mk bk abstract p d) := by
  simp only [Container.resolveStep]
  split
  · exact monoRes_refl_err d _
  · rename_i canon heqA
    split
    · exact monoRes_refl_ok d _
    · have h1 := mono_runConcrete env regs mk bk hmk hbk canon
        (Container.getConcrete regs { d with withStack := d.withStack ++ [p] } canon)
        { d with withStack := d.withStack ++ [p] }
      split
      next e d2 heq =>
        rw [heq] at h1
        exact h1
      next object d2 heq =>
        rw [heq] at h1
        have h2 := mono_finishResolve regs canon
          (Container.needsCtxB regs d canon p) object d2
        exact ⟨le_trans h1.1 h2.1, le_trans h1.2 h2.2⟩

theorem mono_runF (env : Env) (regs : Regs) : ∀ (n : Nat)
    (job : (Value × Params) ⊕ Value) (d : Dyn),
    MonoRes d (Container.runF env regs n job d) := by
  intro n
  induction n with
  | zero =>
    intro job d
    exact monoRes_refl_err d .fuelOut
  | succ m ih =>
    intro job d
    have hmk : MkMono (fun a2 p2 => Container.runF env regs m (.inl (a2, p2))) :=
      fun a p d2 => ih (.inl (a, p)) d2
    have hbk : BkMono (fun v2 => Container.runF env regs m (.inr v2)) :=
      fun v d2 => ih (.inr v) d2
    cases job with
    | inl ap =>
      obtain ⟨a, p⟩ := ap
      exact mono_resolveStep env regs _ _ hmk hbk a p d
    | inr v =>
      exact mono_buildCoreF env regs _ _ hmk hbk v d

theorem mono_resolve (env : Env) (regs : Regs) (n : Nat) (a : Value)
    (p : Params) (d : Dyn) : MonoRes d (Container.resolve env regs n a p d) :=
  mono_runF env regs n (.inl (a, p)) d

theorem dropLast_append_single {α : Type} (l : List α) (a : α) :
    (l ++ [a]).dropLast = l := by
  simp

/-- Stack restoration on a clean success: if a computation returns
successfully without any fault having been swallowed along the way, the
build stack and the parameter-override stack are exactly as before. -/
def CleanOk {α : Type} (d : Dyn) (r : Res α) : Prop :=
  ∀ (a : α) (d2 : Dyn), r = .ok a d2 → d2.swallowCount = d.swallowCount →
    d2.buildStack = d.buildStack ∧ d2.withStack = d.withStack

/-- Stack restoration for a `make` continuation. -/
def MkClean (mk : MkT) : Prop := ∀ a p d, CleanOk d (mk a p d)

/-- Stack restoration for a `build` continuation. -/
def BkClean (bk : BkT) : Prop := ∀ v d, CleanOk d (bk v d)

theorem cleanOk_refl {α : Type} (d : Dyn) (a : α) : CleanOk d (.ok a d) := by
  intro a2 d2 h _
  cases h
  exact ⟨rfl, rfl⟩

theorem cleanOk_err {α : Type} (d d3 : Dyn) (e : Err) :
    CleanOk d (.err e d3 : Res α) := by
  intro a2 d2 h
  cases h

theorem clean_applyPrimCtx (mk : MkT) (bk : BkT) (hmk : MkClean mk)
    (hbk : BkClean bk) (c : Conc) (d : Dyn) :
    CleanOk d (Container.applyPrimCtx mk bk c d) := by
  cases c with
  | fnConst v => exact cleanOk_refl d v
  | val v => exact cleanOk_refl d v
  | wrap a c2 =>
    simp only [Container.applyPrimCtx]
    by_cases h : a = c2
    · simpa [h] using hbk c2 d
    · simpa [h] using hmk c2 (Params.objP []) d

theorem clean_resolvePrimitiveF (regs : Regs) (mk : MkT) (bk : BkT)
    (hmk : MkClean mk) (hbk : BkClean bk) (p : PDesc) (d : Dyn) :
    CleanOk d (Container.resolvePrimitiveF regs mk bk p d) := by
  simp only [Container.resolvePrimitiveF]
  have hfall : CleanOk d
      (if p.isDefaultValueAvailable then Res.ok p.value d
       else Res.err (.resolution .unresolvablePrimitive) d) := by
    by_cases hd : p.isDefaultValueAvailable = true
    · simpa [hd] using cleanOk_refl d p.value
    · simp only [Bool.not_eq_true] at hd
      simpa [hd] using cleanOk_err d d (.resolution .unresolvablePrimitive)
  match hc : Container.getCtxConcrete regs d (Value.strV p.name) with
  | some c =>
    by_cases ht : c.truthyC = true
    · simpa [ht] using clean_applyPrimCtx mk bk hmk hbk c d
    · simp only [Bool.not_eq_true] at ht
      simpa [ht] using hfall
  | none => simpa using hfall

theorem clean_catchResolution (p : PDesc) (d : Dyn) (r : Res Value)
    (hmono : MonoRes d r) (h : CleanOk d r) :
    CleanOk d (Container.catchResolution p r) := by
  match r with
  | .ok v d2 => simpa [Container.catchResolution] using h
  | .err (.resolution k) d2 =>
    by_cases hd : p.isDefaultValueAvailable = true
    · simp only [Container.catchResolution, hd, if_true]
      intro a2 d3 heq hsw
      cases heq
      exfalso
      have := hmono.2
      simp only [Res.dyn] at this
      simp only at hsw
      omega
    · simp only [Bool.not_eq_true] at hd
      simp only [Container.catchResolution, hd, Bool.false_eq_true, if_false]
      exact cleanOk_err d d2 (.resolution k)
  | .err .bindingError d2 => simpa [Container.catchResolution] using h
  | .err .logicError d2 => simpa [Container.catchResolution] using h
  | .err .entryNotFound d2 => simpa [Container.catchResolution] using h
  | .err .fuelOut d2 => simpa [Container.catchResolution] using h

theorem clean_resolveClassF (mk : MkT) (hmono : MkMono mk) (hmk : MkClean mk)
    (p : PDesc) (d : Dyn) : CleanOk d (Container.resolveClassF mk p d) := by
  cases hp : p.ptype with
  | builtin =>
    simpa [Container.resolveClassF, hp] using
      cleanOk_err d d (.resolution .missingType)
  | cls t =>
    simp only [Container.resolveClassF, hp]
    exact clean_catchResolution p d _ (hmono t (Params.arr []) d)
      (hmk t (Params.arr []) d)
  | iface key =>
    simp only [Container.resolveClassF, hp]
    exact clean_catchResolution p d _ (hmono key (Params.arr []) d)
      (hmk key (Params.arr []) d)

theorem clean_depOne (regs : Regs) (mk : MkT) (bk : BkT) (hmono : MkMono mk)
    (hmk : MkClean mk) (hbk : BkClean bk) (dep : PDesc) (d : Dyn) :
    CleanOk d (Container.depOne regs mk bk dep d) := by
  simp only [Container.depOne]
  by_cases h : Container.hasParamOverride d dep.name = true
  · simpa [h] using cleanOk_refl d (Container.getParamOverride d dep.name)
  · simp only [Bool.not_eq_true] at h
    simp only [h, Bool.false_eq_true, if_false]
    cases dep.ptype with
    | builtin => exact clean_resolvePrimitiveF regs mk bk hmk hbk dep d
    | cls t => exact clean_resolveClassF mk hmono hmk dep d
    | iface key => exact clean_resolveClassF mk hmono hmk dep d

theorem clean_resolveDepsF (regs : Regs) (mk : MkT) (bk : BkT)
    (hmonoMk : MkMono mk) (hmonoBk : BkMono bk) (hmk : MkClean mk)
    (hbk : BkClean bk) : ∀ (ps : List PDesc) (d : Dyn),
    CleanOk d (Container.resolveDepsF regs mk bk ps d) := by
  intro ps
  induction ps with
  | nil => intro d; exact cleanOk_refl d []
  | cons dep rest ih =>
    intro d
    have hm1 := mono_depOne regs mk bk hmonoMk hmonoBk dep d
    have hc1 := clean_depOne regs mk bk hmonoMk hmk hbk dep d
    simp only [Container.resolveDepsF]
    split
    next e d2 heq => exact cleanOk_err d d2 e
    next v d2 heq =>
      rw [heq] at hm1 hc1
      have hm2 := mono_resolveDepsF regs mk bk hmonoMk hmonoBk rest d2
      have hc2 := ih d2
      split
      next e d3 heq2 => exact cleanOk_err d d3 e
      next vs d3 heq2 =>
        rw [heq2] at hm2 hc2
        intro a2 d4 heq3 hsw
        cases heq3
        have hswd2 : d2.swallowCount = d.swallowCount := by
          have := hm1.2
          have := hm2.2
          simp only [Res.dyn] at *
          omega
        have hswd3 : d3.swallowCount = d2.swallowCount := by omega
        obtain ⟨hb1, hw1⟩ := hc1 v d2 rfl hswd2
        obtain ⟨hb2, hw2⟩ := hc2 vs d3 rfl hswd3
        exact ⟨hb2.trans hb1, hw2.trans hw1⟩

theorem clean_buildCoreF (env : Env) (regs : Regs) (mk : MkT) (bk : BkT)
    (hmonoMk : MkMono mk) (hmonoBk : BkMono bk) (hmk : MkClean mk)
    (hbk : BkClean bk) (v : Value) (d : Dyn) :
    CleanOk d (Container.buildCoreF env regs mk bk v d) := by
  cases v with
  | tok i =>
    simp only [Container.buildCoreF]
    match hc : alookup i env.classes with
    | none => exact cleanOk_err d d (.resolution .notInstantiable)
    | some ps =>
      by_cases hps : ps.isEmpty = true
      · simp only [hps, if_true]
        intro a2 d4 heq hsw
        cases heq
        exact ⟨dropLast_append_single _ _, rfl⟩
      · simp only [Bool.not_eq_true] at hps
        simp only [hps, Bool.false_eq_true, if_false]
        have hm := mono_resolveDepsF regs mk bk hmonoMk hmonoBk ps
          { d with buildStack := d.buildStack ++ [Value.tok i] }
        have hcl := clean_resolveDepsF regs mk bk hmonoMk hmonoBk hmk hbk ps
          { d with buildStack := d.buildStack ++ [Value.tok i] }
        split
        next e d2 heq => exact cleanOk_err d d2 e
        next vs d2 heq =>
          rw [heq] at hm hcl
          intro a2 d4 heq2 hsw
          cases heq2
          have hswd2 : d2.swallowCount = d.swallowCount := by
            have := hm.2
            simp only [Res.dyn] at this
            simp only at hsw ⊢
            omega
          obtain ⟨hb, hw⟩ := hcl vs d2 rfl hswd2
          simp only at hb hw ⊢
          rw [hb, hw]
          exact ⟨dropLast_append_single _ _, rfl⟩
  | undef => exact cleanOk_err d d (.resolution .notInstantiable)
  | nullV => exact cleanOk_err d d (.resolution .notInstantiable)
  | boolV b => exact cleanOk_err d d (.resolution .notInstantiable)
  | numV n => exact cleanOk_err d d (.resolution .notInstantiable)
  | strV s => exact cleanOk_err d d (.resolution .notInstantiable)
  | obj c n as => exact cleanOk_err d d (.resolution .notInstantiable)

theorem clean_buildF (env : Env) (regs : Regs) (mk : MkT) (bk : BkT)
    (hmonoMk : MkMono mk) (hmonoBk : BkMono bk) (hmk : MkClean mk)
    (hbk : BkClean bk) (c : Conc) (d : Dyn) :
    CleanOk d (Container.buildF env regs mk bk c d) := by
  cases c with
  | fnConst v => exact cleanOk_refl d v
  | val v => exact clean_buildCoreF env regs mk bk hmonoMk hmonoBk hmk hbk v d
  | wrap a c2 =>
    simp only [Container.buildF]
    by_cases h : a = c2
    · simpa [h] using clean_buildCoreF env regs mk bk hmonoMk hmonoBk hmk hbk c2 d
    · simpa [h] using hmk c2 (Container.lastParamOverride d) d

theorem clean_runConcrete (env : Env) (regs : Regs) (mk : MkT) (bk : BkT)
    (hmonoMk : MkMono mk) (hmonoBk : BkMono bk) (hmk : MkClean mk)
    (hbk : BkClean bk) (canon : Value) (conc : Conc) (d : Dyn) :
    CleanOk d (Container.runConcrete env regs mk bk canon conc d) := by
  cases conc with
  | val v2 =>
    simp only [Container.runConcrete]
    by_cases h : v2 = canon
    · simpa [h] using clean_buildF env regs mk bk hmonoMk hmonoBk hmk hbk (.val v2) d
    · simpa [h] using hmk v2 (Params.arr []) d
  | wrap a c2 =>
    exact clean_buildF env regs mk bk hmonoMk hmonoBk hmk hbk (.wrap a c2) d
  | fnConst v =>
    exact clean_buildF env regs mk bk hmonoMk hmonoBk hmk hbk (.fnConst v) d

/-- The tail of `_resolve` changes only the instance cache, the events, the
resolved-set and the override stack (which it pops); build stack, counter
and swallow count pass through. -/
theorem finishResolve_state (regs : Regs) (canon : Value) (nc : Bool)
    (object : Value) (d2 : Dyn) (a : Value) (d5 : Dyn)
    (h : Container.finishResolve regs canon nc object d2 = .ok a d5) :
    d5.buildStack = d2.buildStack ∧ d5.withStack = d2.withStack.dropLast ∧
      d5.swallowCount = d2.swallowCount ∧ d5.counter = d2.counter := by
  simp only [Container.finishResolve] at h
  match hx : Container.getExtendersE regs canon with
  | .error e => rw [hx] at h; cases h
  | .ok exts =>
    rw [hx] at h
    by_cases hs : (Container.isSharedB regs d2 canon && !nc) = true
    · simp only [hs, if_true, Container.fireResolvingD] at h
      cases h
      exact ⟨rfl, rfl, rfl, rfl⟩
    · simp only [Bool.not_eq_true] at hs
      simp only [hs, Bool.false_eq_true, if_false, Container.fireResolvingD] at h
      cases h
      exact ⟨rfl, rfl, rfl, rfl⟩

theorem clean_resolveStep (env : Env) (regs : Regs) (mk : MkT) (bk : BkT)
    (hmonoMk : MkMono mk) (hmonoBk : BkMono bk) (hmk : MkClean mk)
    (hbk : BkClean bk) (abstract : Value) (p : Params) (d : Dyn) :
    CleanOk d (Container.resolveStep env regs mk bk abstract p d) := by
  simp only [Container.resolveStep]
  split
  · exact cleanOk_err d d _
  · rename_i canon heqA
    split
    · exact cleanOk_refl d _
    · have hm1 := mono_runConcrete env regs mk bk hmonoMk hmonoBk canon
        (Container.getConcrete regs { d with withStack := d.withStack ++ [p] } canon)
        { d with withStack := d.withStack ++ [p] }
      have hc1 := clean_runConcrete env regs mk bk hmonoMk hmonoBk hmk hbk canon
        (Container.getConcrete regs { d with withStack := d.withStack ++ [p] } canon)
        { d with withStack := d.withStack ++ [p] }
      split
      next e d2 heq => exact cleanOk_err d d2 e
      next object d2 heq =>
        rw [heq] at hm1 hc1
        intro a2 d5 heq2 hsw
        obtain ⟨hb5, hw5, hsw5, _⟩ := finishResolve_state regs canon
          (Container.needsCtxB regs d canon p) object d2 a2 d5 heq2
        have hswd2 : d2.swallowCount = d.swallowCount := by
          have := hm1.2
          simp only [Res.dyn] at this
          omega
        obtain ⟨hb2, hw2⟩ := hc1 object d2 rfl hswd2
        simp only at hb2 hw2
        refine ⟨hb5.trans hb2, ?_⟩
        rw [hw5, hw2]
        exact dropLast_append_single _ _

theorem clean_runF (env : Env) (regs : Regs) : ∀ (n : Nat)
    (job : (Value × Params) ⊕ Value) (d : Dyn),
    CleanOk d (Container.runF env regs n job d) := by
  intro n
  induction n with
  | zero => intro job d; exact cleanOk_err d d .fuelOut
  | succ m ih =>
    intro job d
    have hmonoMk : MkMono (fun a2 p2 => Container.runF env regs m (.inl (a2, p2))) :=
      fun a p d2 => mono_runF env regs m (.inl (a, p)) d2
    have hmonoBk : BkMono (fun v2 => Container.runF env regs m (.inr v2)) :=
      fun v d2 => mono_runF env regs m (.inr v) d2
    have hmk : MkClean (fun a2 p2 => Container.runF env regs m (.inl (a2, p2))) :=
      fun a p d2 => ih (.inl (a, p)) d2
    have hbk : BkClean (fun v2 => Container.runF env regs m (.inr v2)) :=
      fun v d2 => ih (.inr v) d2
    cases job with
    | inl ap =>
      obtain ⟨a, p⟩ := ap
      exact clean_resolveStep env regs _ _ hmonoMk hmonoBk hmk hbk a p d
    | inr v =>
      exact clean_buildCoreF env regs _ _ hmonoMk hmonoBk hmk hbk v d

instance {ε α : Type} [DecidableEq ε] [DecidableEq α] : DecidableEq (Except ε α) :=
  fun x y =>
    match x, y with
    | .ok v, .ok w =>
      if h : v = w then isTrue (by rw [h]) else isFalse (by simp [h])
    | .error v, .error w =>
      if h : v = w then isTrue (by rw [h]) else isFalse (by simp [h])
    | .ok _, .error _ => isFalse (by simp)
    | .error _, .ok _ => isFalse (by simp)

/-- The registries an operation ends with. -/
def OpRes.regsOf {α : Type} : OpRes α → Regs
  | .ok _ r _ => r
  | .err _ r _ => r

/-- The dynamic state an operation ends with. -/
def OpRes.dynOf {α : Type} : OpRes α → Dyn
  | .ok _ _ d => d
  | .err _ _ d => d

/-- C2 counterexample: on the `Container` facade, `alias(a, a)` does not
fail at registration time, and it does change the alias registry — the
self-edge and the reverse-index entry are recorded. -/
theorem claim_C2_counterexample :
    (Container.aliasOp Regs.empty (Value.strV "a") (Value.strV "a")).aliases
        = [(Value.strV "a", Value.strV "a")] ∧
      (Container.aliasOp Regs.empty (Value.strV "a") (Value.strV "a")).abstractAliases
        = [(Value.strV "a", [Value.strV "a"])] ∧
      Container.aliasOp Regs.empty (Value.strV "a") (Value.strV "a") ≠ Regs.empty := by
  decide

/-- C2 (amended): the standalone `Aliaser.alias` rejects a direct
self-alias at registration time with a `LogicError`, leaving its registry
unchanged; the `Container` facade records the self-edge without fault, and
the `LogicError` surfaces on the first subsequent canonicalization
(`getAlias`) of that identifier. -/
theorem claim_C2_selfalias (st : AliaserSt) (regs : Regs) (a : Value) :
    Aliaser.aliasOp st a a = .error .logicError ∧
      Container.getAliasE (Container.aliasOp regs a a) a = .error .logicError := by
  constructor
  · simp [Aliaser.aliasOp]
  · have hal : (Container.aliasOp regs a a).aliases = aset a a regs.aliases := rfl
    simp [Container.getAliasE, hal, getAliasF, alookup_aset_self]

/-- C5: `bind` with the concrete omitted self-binds a constructible
abstract — the stored record wraps the abstract as its own concrete with
the given shared flag, whatever the rebound notification then does — and
fails with a `BindingError`, storing no binding record, when the abstract
is not constructible. -/
theorem claim_C5_bind_omitted (env : Env) (n : Nat) (regs : Regs) (d : Dyn)
    (abstract : Value) (sh : Bool) :
    (env.isInstantiable abstract = true →
      (Container.bindOp env n regs d abstract none sh).regsOf.bindings =
        aset abstract (Conc.wrap abstract abstract, sh) regs.bindings) ∧
    (env.isInstantiable abstract = false →
      Container.bindOp env n regs d abstract none sh =
        OpRes.err .bindingError { regs with aliases := adel abstract regs.aliases }
          { d with instances := adel abstract d.instances }) := by
  constructor
  · intro h
    simp only [Container.bindOp, h, if_true, Conc.isInstantiableC]
    split
    · rfl
    · split <;> rfl
    · rfl
  · intro h
    simp only [Container.bindOp, h, Bool.false_eq_true, if_false]

/-- C5 witness: a constructible token self-binds; a plain string cannot. -/
theorem claim_C5_witness :
    ((⟨[(0, [])]⟩ : Env).isInstantiable (Value.tok 0) = true ∧
      (Container.bindOp ⟨[(0, [])]⟩ 5 Regs.empty Dyn.empty (Value.tok 0) none
          true).regsOf.bindings =
        aset (Value.tok 0) (Conc.wrap (Value.tok 0) (Value.tok 0), true)
          Regs.empty.bindings) ∧
    ((⟨[(0, [])]⟩ : Env).isInstantiable (Value.strV "s") = false ∧
      Container.bindOp ⟨[(0, [])]⟩ 5 Regs.empty Dyn.empty (Value.strV "s") none
          false =
        OpRes.err .bindingError
          { Regs.empty with aliases := adel (Value.strV "s") Regs.empty.aliases }
          { Dyn.empty with
              instances := adel (Value.strV "s") Dyn.empty.instances }) := by
  have h := claim_C5_bind_omitted ⟨[(0, [])]⟩ 5 Regs.empty Dyn.empty (Value.tok 0) true
  have h2 := claim_C5_bind_omitted ⟨[(0, [])]⟩ 5 Regs.empty Dyn.empty (Value.strV "s") false
  exact ⟨⟨by decide, h.1 (by decide)⟩, ⟨by decide, h2.2 (by decide)⟩⟩

/-- C9: `unbind` removes only the abstract's binding record, cached
instance and resolved flag; every alias structure — and hence `isAlias`,
and `bound`/`has` when the identifier was an alias — is untouched. -/
theorem claim_C9_unbind_frame (regs : Regs) (d : Dyn) (a : Value) :
    (Container.unbindOp regs d a).1.aliases = regs.aliases ∧
    (Container.unbindOp regs d a).1.abstractAliases = regs.abstractAliases ∧
    (Container.unbindOp regs d a).1.contextual = regs.contextual ∧
    (Container.unbindOp regs d a).1.tags = regs.tags ∧
    (Container.unbindOp regs d a).1.extenders = regs.extenders ∧
    (Container.unbindOp regs d a).1.reboundCbs = regs.reboundCbs ∧
    (keysNodup regs.bindings = true →
      alookup a (Container.unbindOp regs d a).1.bindings = none) ∧
    (∀ b, b ≠ a →
      alookup b (Container.unbindOp regs d a).1.bindings = alookup b regs.bindings) ∧
    (keysNodup d.instances = true →
      alookup a (Container.unbindOp regs d a).2.instances = none) ∧
    (∀ b, b ≠ a →
      alookup b (Container.unbindOp regs d a).2.instances = alookup b d.instances) ∧
    (setNodup d.resolvedSet = true →
      smem a (Container.unbindOp regs d a).2.resolvedSet = false) ∧
    (∀ b, b ≠ a →
      smem b (Container.unbindOp regs d a).2.resolvedSet = smem b d.resolvedSet) ∧
    (Container.unbindOp regs d a).2.buildStack = d.buildStack ∧
    (Container.unbindOp regs d a).2.withStack = d.withStack ∧
    Container.isAliasB (Container.unbindOp regs d a).1 a = Container.isAliasB regs a ∧
    (Container.isAliasB regs a = true →
      Container.boundB (Container.unbindOp regs d a).1 (Container.unbindOp regs d a).2 a = true ∧
      Container.hasB (Container.unbindOp regs d a).1 (Container.unbindOp regs d a).2 a = true) := by
  refine ⟨rfl, rfl, rfl, rfl, rfl, rfl, ?_, ?_, ?_, ?_, ?_, ?_, rfl, rfl, rfl, ?_⟩
  · intro hnd
    exact alookup_adel_self a regs.bindings hnd
  · intro b hb
    exact alookup_adel_ne a b hb regs.bindings
  · intro hnd
    exact alookup_adel_self a d.instances hnd
  · intro b hb
    exact alookup_adel_ne a b hb d.instances
  · intro hnd
    exact smem_sdel_self a d.resolvedSet hnd
  · intro b hb
    exact smem_sdel_ne a b hb d.resolvedSet
  · intro hal
    have : Container.isAliasB (Container.unbindOp regs d a).1 a = true := hal
    constructor
    · simp [Container.boundB, this]
    · simp [Container.hasB, Container.boundB, this]

/-- C9 witness: unbinding an identifier that is an alias leaves it an
alias, and still `bound`. -/
theorem claim_C9_witness :
    (({ Regs.empty with
          aliases := [(Value.strV "x", Value.tok 0)] } : Regs).aliases =
      (Container.unbindOp
          { Regs.empty with aliases := [(Value.strV "x", Value.tok 0)] }
          Dyn.empty (Value.strV "x")).1.aliases) ∧
    Container.isAliasB
        { Regs.empty with aliases := [(Value.strV "x", Value.tok 0)] }
        (Value.strV "x") = true ∧
    Container.boundB
        (Container.unbindOp
          { Regs.empty with aliases := [(Value.strV "x", Value.tok 0)] }
          Dyn.empty (Value.strV "x")).1
        (Container.unbindOp
          { Regs.empty with aliases := [(Value.strV "x", Value.tok 0)] }
          Dyn.empty (Value.strV "x")).2
        (Value.strV "x") = true := by
  have h := claim_C9_unbind_frame
    { Regs.empty with aliases := [(Value.strV "x", Value.tok 0)] }
    Dyn.empty (Value.strV "x")
  refine ⟨(h.1).symm, by decide, ?_⟩
  exact (h.2.2.2.2.2.2.2.2.2.2.2.2.2.2.2 (by decide)).1

/-- C10: a constructor-parameter default of `null`/`undefined` counts as no
default at all, and a falsy contextual override for a primitive parameter
is ignored as if absent: in both situations `_resolvePrimitive` falls back
to the available-default-or-fault path. -/
theorem claim_C10_primitive_defaults (regs : Regs) (mk : MkT) (bk : BkT)
    (p : PDesc) (d : Dyn)
    (hctx : Container.getCtxConcrete regs d (Value.strV p.name) = none ∨
      ∃ c, Container.getCtxConcrete regs d (Value.strV p.name) = some c ∧
        c.truthyC = false) :
    Container.resolvePrimitiveF regs mk bk p d =
      (if p.isDefaultValueAvailable then Res.ok p.value d
       else Res.err (.resolution .unresolvablePrimitive) d) ∧
    (p.value.isNullOrUndefined = true →
      Container.resolvePrimitiveF regs mk bk p d =
        Res.err (.resolution .unresolvablePrimitive) d) := by
  have main : Container.resolvePrimitiveF regs mk bk p d =
      (if p.isDefaultValueAvailable then Res.ok p.value d
       else Res.err (.resolution .unresolvablePrimitive) d) := by
    rcases hctx with hc | ⟨c, hc, ht⟩
    · simp [Container.resolvePrimitiveF, hc]
    · simp [Container.resolvePrimitiveF, hc, ht]
  refine ⟨main, fun hnull => ?_⟩
  rw [main]
  simp [PDesc.isDefaultValueAvailable, hnull]

/-- C10 witness: a primitive parameter with a `null` default and a falsy
(zero) contextual override faults as unresolvable. -/
theorem claim_C10_witness :
    (Container.getCtxConcrete
        { Regs.empty with
            contextual := [((Value.tok 9, Value.strV "p"), Conc.val (Value.numV 0))] }
        { Dyn.empty with buildStack := [Value.tok 9] } (Value.strV "p") =
      some (Conc.val (Value.numV 0)) ∧ (Conc.val (Value.numV 0)).truthyC = false) ∧
    Container.resolvePrimitiveF
        { Regs.empty with
            contextual := [((Value.tok 9, Value.strV "p"), Conc.val (Value.numV 0))] }
        (fun _ _ d => .err .fuelOut d) (fun _ d => .err .fuelOut d)
        ⟨"p", 0, PType.builtin, Value.nullV⟩
        { Dyn.empty with buildStack := [Value.tok 9] } =
      Res.err (.resolution .unresolvablePrimitive)
        { Dyn.empty with buildStack := [Value.tok 9] } := by
  constructor
  · exact ⟨by decide, by decide⟩
  · exact (claim_C10_primitive_defaults _ _ _ ⟨"p", 0, PType.builtin, Value.nullV⟩ _
      (Or.inr ⟨Conc.val (Value.numV 0), by decide, by decide⟩)).2 (by decide)

/-- C1 counterexample: a top-level `make` of a class with an unresolvable
primitive parameter faults, and the build stack and the parameter-override
stack are NOT restored to their pre-call (empty) depth — the source pops
them only on the success path. -/
theorem claim_C1_counterexample :
    Container.make ⟨[(2, [⟨"p", 0, PType.builtin, Value.undef⟩])]⟩ Regs.empty 6
        (Value.tok 2) Dyn.empty =
      Res.err (.resolution .unresolvablePrimitive)
        { instances := [], resolvedSet := [], buildStack := [Value.tok 2],
          withStack := [Params.arr []], counter := 0, events := [],
          swallowCount := 0 } ∧
    (Container.make ⟨[(2, [⟨"p", 0, PType.builtin, Value.undef⟩])]⟩ Regs.empty 6
        (Value.tok 2) Dyn.empty).dyn.buildStack ≠ Dyn.empty.buildStack ∧
    (Container.make ⟨[(2, [⟨"p", 0, PType.builtin, Value.undef⟩])]⟩ Regs.empty 6
        (Value.tok 2) Dyn.empty).dyn.withStack ≠ Dyn.empty.withStack := by
  decide

/-- C1 (amended): on a successful top-level `resolve`/`make` during which
no fault was swallowed by the optional-dependency fallback, the build stack
and the parameter-override stack are restored to their pre-call depth; on a
fault (or after a swallowed nested fault) the entries pushed by the faulting
portion remain. -/
theorem claim_C1_stacks_restored (env : Env) (regs : Regs) (n : Nat)
    (a : Value) (p : Params) (d : Dyn) (v : Value) (d2 : Dyn)
    (h : Container.resolve env regs n a p d = .ok v d2)
    (hsw : d2.swallowCount = d.swallowCount) :
    d2.buildStack = d.buildStack ∧ d2.withStack = d.withStack :=
  clean_runF env regs n (.inl (a, p)) d v d2 h hsw

/-- C1 witness: a clean successful build restores both stacks. -/
theorem claim_C1_witness :
    ({ instances := [], resolvedSet := [Value.tok 0], buildStack := [],
       withStack := [], counter := 1, events := [],
       swallowCount := 0 } : Dyn).buildStack = Dyn.empty.buildStack ∧
    ({ instances := [], resolvedSet := [Value.tok 0], buildStack := [],
       withStack := [], counter := 1, events := [],
       swallowCount := 0 } : Dyn).withStack = Dyn.empty.withStack :=
  claim_C1_stacks_restored ⟨[(0, [])]⟩ Regs.empty 5 (Value.tok 0)
    (Params.arr []) Dyn.empty (Value.obj 0 0 [])
    { instances := [], resolvedSet := [Value.tok 0], buildStack := [],
      withStack := [], counter := 1, events := [], swallowCount := 0 }
    (by decide) (by decide)

/-- C4 counterexample: class `tok 0` needs a `tok 1` with a default; the
nested `make (tok 1)` faults with an unresolvable-PRIMITIVE condition (not
a not-instantiable one), yet the fault does not propagate: the outer `make`
succeeds, the fault is swallowed (`swallowCount` is 1) and the default `7`
is injected. -/
theorem claim_C4_counterexample :
    Container.make
        ⟨[(0, [⟨"d", 0, PType.cls (Value.tok 1), Value.numV 7⟩]),
          (1, [⟨"p", 0, PType.builtin, Value.undef⟩])]⟩ Regs.empty 7
        (Value.tok 1) Dyn.empty =
      Res.err (.resolution .unresolvablePrimitive)
        { instances := [], resolvedSet := [], buildStack := [Value.tok 1],
          withStack := [Params.arr []], counter := 0, events := [],
          swallowCount := 0 } ∧
    Container.make
        ⟨[(0, [⟨"d", 0, PType.cls (Value.tok 1), Value.numV 7⟩]),
          (1, [⟨"p", 0, PType.builtin, Value.undef⟩])]⟩ Regs.empty 8
        (Value.tok 0) Dyn.empty =
      Res.ok (Value.obj 0 0 [Value.numV 7])
        { instances := [], resolvedSet := [Value.tok 0],
          buildStack := [Value.tok 0], withStack := [Params.arr []],
          counter := 1, events := [], swallowCount := 1 } := by
  decide

/-- C4 (amended): when resolving a class-typed constructor dependency whose
nested `make` fails, the fault is swallowed and the default used whenever
the fault is a `BindingResolutionError` of ANY kind (not-instantiable,
unresolvable-primitive or missing-parameter-type) and the descriptor has a
default; faults of any other kind propagate unchanged even when a default
exists. -/
theorem claim_C4_swallow (env : Env) (regs : Regs) (n : Nat) (p : PDesc)
    (t : Value) (d : Dyn) (hp : p.ptype = PType.cls t) :
    (∀ k d2,
      Container.resolve env regs n t (Params.arr []) d =
          .err (.resolution k) d2 →
        Container.resolveClassF
            (fun a q => Container.runF env regs n (.inl (a, q))) p d =
          if p.isDefaultValueAvailable then
            Res.ok p.value { d2 with swallowCount := d2.swallowCount + 1 }
          else Res.err (.resolution k) d2) ∧
    (∀ e d2,
      Container.resolve env regs n t (Params.arr []) d = .err e d2 →
      (∀ k, e ≠ .resolution k) →
        Container.resolveClassF
            (fun a q => Container.runF env regs n (.inl (a, q))) p d =
          .err e d2) := by
  constructor
  · intro k d2 hfail
    have hfail2 : Container.runF env regs n (.inl (t, Params.arr [])) d =
        Res.err (.resolution k) d2 := hfail
    simp only [Container.resolveClassF, hp]
    rw [hfail2]
    by_cases hd : p.isDefaultValueAvailable = true <;>
      simp [Container.catchResolution, hd]
  · intro e d2 hfail hne
    have hfail2 : Container.runF env regs n (.inl (t, Params.arr [])) d =
        Res.err e d2 := hfail
    simp only [Container.resolveClassF, hp]
    rw [hfail2]
    cases e with
    | resolution k => exact absurd rfl (hne k)
    | bindingError => rfl
    | logicError => rfl
    | entryNotFound => rfl
    | fuelOut => rfl

/-- C4 witness: the swallow branch fires on the concrete counterexample
environment, and a `LogicError` from the nested `make` (a self-aliased
dependency) propagates even though the descriptor has a default. -/
theorem claim_C4_witness :
    Container.resolveClassF
        (fun a q => Container.runF
          ⟨[(0, [⟨"d", 0, PType.cls (Value.tok 1), Value.numV 7⟩]),
            (1, [⟨"p", 0, PType.builtin, Value.undef⟩])]⟩ Regs.empty 7
          (.inl (a, q)))
        ⟨"d", 0, PType.cls (Value.tok 1), Value.numV 7⟩ Dyn.empty =
      Res.ok (Value.numV 7)
        { instances := [], resolvedSet := [], buildStack := [Value.tok 1],
          withStack := [Params.arr []], counter := 0, events := [],
          swallowCount := 1 } ∧
    Container.resolveClassF
        (fun a q => Container.runF
          ⟨[]⟩
          { Regs.empty with aliases := [(Value.tok 1, Value.tok 1)] } 7
          (.inl (a, q)))
        ⟨"d", 0, PType.cls (Value.tok 1), Value.numV 7⟩ Dyn.empty =
      Res.err .logicError Dyn.empty := by
  constructor
  · have h := (claim_C4_swallow
      ⟨[(0, [⟨"d", 0, PType.cls (Value.tok 1), Value.numV 7⟩]),
        (1, [⟨"p", 0, PType.builtin, Value.undef⟩])]⟩ Regs.empty 7
      ⟨"d", 0, PType.cls (Value.tok 1), Value.numV 7⟩ (Value.tok 1) Dyn.empty
      rfl).1 ResKind.unresolvablePrimitive
      { instances := [], resolvedSet := [], buildStack := [Value.tok 1],
        withStack := [Params.arr []], counter := 0, events := [],
        swallowCount := 0 } (by decide)
    rw [h]
    decide
  · have h := (claim_C4_swallow ⟨[]⟩
      { Regs.empty with aliases := [(Value.tok 1, Value.tok 1)] } 7
      ⟨"d", 0, PType.cls (Value.tok 1), Value.numV 7⟩ (Value.tok 1) Dyn.empty
      rfl).2 Err.logicError Dyn.empty (by decide) (fun k h => Err.noConfusion h)
    rw [h]

/-- C8: tagging `[A, B]` under a fresh tag `t` stores the members in
registration order; `tagged t` then makes each member in that order,
returning `[make A, make B]`; `tagged` of an unregistered tag is the empty
list (resolving nothing). -/
theorem claim_C8_tag_tagged (env : Env) (regs : Regs) (n : Nat) (t : String)
    (A B : Value) (d : Dyn)
    (hfresh : alookup t regs.tags = none) :
    alookup t (Container.tagOp regs [A, B] [t]).tags = some [A, B] ∧
    (∀ vA d1 vB d2,
      Container.make env (Container.tagOp regs [A, B] [t]) n A d = .ok vA d1 →
      Container.make env (Container.tagOp regs [A, B] [t]) n B d1 = .ok vB d2 →
      Container.taggedF env (Container.tagOp regs [A, B] [t]) n t d =
        .ok [vA, vB] d2) ∧
    (∀ (t2 : String) (d3 : Dyn), alookup t2 regs.tags = none →
      Container.taggedF env regs n t2 d3 = .ok [] d3) := by
  have htag : (Container.tagOp regs [A, B] [t]).tags =
      aset t [A, B] regs.tags := by
    simp [Container.tagOp, hfresh]
  refine ⟨?_, ?_, ?_⟩
  · rw [htag]
    exact alookup_aset_self t [A, B] regs.tags
  · intro vA d1 vB d2 hA hB
    have hlook : alookup t (Container.tagOp regs [A, B] [t]).tags = some [A, B] := by
      rw [htag]
      exact alookup_aset_self t [A, B] regs.tags
    simp only [Container.taggedF, hlook, Container.taggedList]
    rw [show Container.resolve env (Container.tagOp regs [A, B] [t]) n A
        (Params.arr []) d = Res.ok vA d1 from hA]
    simp only [Container.taggedList]
    rw [show Container.resolve env (Container.tagOp regs [A, B] [t]) n B
        (Params.arr []) d1 = Res.ok vB d2 from hB]
  · intro t2 d3 h2
    simp [Container.taggedF, h2]

/-- C8 witness: two zero-dependency classes tagged "g" materialize in
registration order with fresh instances; an unknown tag yields `[]`. -/
theorem claim_C8_witness :
    alookup "g" (Container.tagOp Regs.empty [Value.tok 0, Value.tok 2]
        ["g"]).tags = some [Value.tok 0, Value.tok 2] ∧
    Container.taggedF ⟨[(0, []), (2, [])]⟩
        (Container.tagOp Regs.empty [Value.tok 0, Value.tok 2] ["g"]) 6 "g"
        Dyn.empty =
      .ok [Value.obj 0 0 [], Value.obj 2 1 []]
        { instances := [], resolvedSet := [Value.tok 0, Value.tok 2],
          buildStack := [], withStack := [], counter := 2, events := [],
          swallowCount := 0 } ∧
    Container.taggedF ⟨[(0, []), (2, [])]⟩ Regs.empty 6 "nope" Dyn.empty =
      .ok [] Dyn.empty := by
  have h := claim_C8_tag_tagged ⟨[(0, []), (2, [])]⟩ Regs.empty 6 "g"
    (Value.tok 0) (Value.tok 2) Dyn.empty (by decide)
  refine ⟨h.1, ?_, h.2.2 "nope" Dyn.empty (by decide)⟩
  exact h.2.1 (Value.obj 0 0 [])
    { instances := [], resolvedSet := [Value.tok 0], buildStack := [],
      withStack := [], counter := 1, events := [], swallowCount := 0 }
    (Value.obj 2 1 [])
    { instances := [], resolvedSet := [Value.tok 0, Value.tok 2],
      buildStack := [], withStack := [], counter := 2, events := [],
      swallowCount := 0 }
    (by decide) (by decide)

/-- C7: after an abstract `A` has been resolved (its resolved flag is set)
with rebound callbacks registered, `bind(A, NewConcrete)` re-makes `A`
under the new binding and synchronously fires every registered rebound
callback exactly once, each receiving the newly built instance. -/
theorem claim_C7_rebound_fired (env : Env) (n : Nat) (regs : Regs) (d : Dyn)
    (A C : Value) (sh : Bool) (cbs : List Nat) (v : Value) (dv : Dyn)
    (hnd : keysNodup regs.aliases = true)
    (hres : smem A d.resolvedSet = true)
    (hcbs : alookup A regs.reboundCbs = some cbs)
    (hC : env.isInstantiable C = true)
    (hmk : Container.resolve env
        { regs with aliases := adel A regs.aliases,
                    bindings := aset A (Conc.wrap A C, sh) regs.bindings }
        n A (Params.arr [])
        { d with instances := adel A d.instances } = .ok v dv) :
    Container.bindOp env n regs d A (some (Conc.val C)) sh =
      OpRes.ok ()
        { regs with aliases := adel A regs.aliases,
                    bindings := aset A (Conc.wrap A C, sh) regs.bindings }
        { dv with events :=
            dv.events ++ cbs.map (fun cb => Event.reboundFired cb v) } := by
  have hresolved : Container.resolvedE
      { regs with aliases := adel A regs.aliases,
                  bindings := aset A (Conc.wrap A C, sh) regs.bindings }
      { d with instances := adel A d.instances } A = .ok true := by
    simp [Container.resolvedE, Container.isAliasB,
      alookup_adel_self A regs.aliases hnd, hres]
  simp only [Container.bindOp, Conc.isInstantiableC, hC, if_true]
  rw [show (Container.resolvedE
      { regs with aliases := adel A regs.aliases,
                  bindings := aset A (Conc.wrap A C, sh) regs.bindings }
      { d with instances := adel A d.instances } A) = .ok true from hresolved]
  simp only [Container.reboundRun]
  rw [show (Container.resolve env
      { regs with aliases := adel A regs.aliases,
                  bindings := aset A (Conc.wrap A C, sh) regs.bindings }
      n A (Params.arr [])
      { d with instances := adel A d.instances }) = .ok v dv from hmk]
  simp [hcbs]

/-- C7 witness: one registered rebound callback fires exactly once with the
newly built instance after re-binding a resolved abstract. -/
theorem claim_C7_witness :
    Container.bindOp ⟨[(0, [])]⟩ 6
        { Regs.empty with reboundCbs := [(Value.tok 0, [42])] }
        { instances := [], resolvedSet := [Value.tok 0], buildStack := [],
          withStack := [], counter := 1, events := [], swallowCount := 0 }
        (Value.tok 0) (some (Conc.val (Value.tok 0))) false =
      OpRes.ok ()
        { { Regs.empty with reboundCbs := [(Value.tok 0, [42])] } with
            aliases := adel (Value.tok 0)
              ({ Regs.empty with reboundCbs := [(Value.tok 0, [42])] } : Regs).aliases,
            bindings := aset (Value.tok 0)
              (Conc.wrap (Value.tok 0) (Value.tok 0), false)
              ({ Regs.empty with reboundCbs := [(Value.tok 0, [42])] } : Regs).bindings }
        { ({ instances := [], resolvedSet := [Value.tok 0], buildStack := [],
             withStack := [], counter := 2, events := [],
             swallowCount := 0 } : Dyn) with
            events := [] ++ [42].map (fun cb =>
              Event.reboundFired cb (Value.obj 0 1 [])) } := by
  exact claim_C7_rebound_fired ⟨[(0, [])]⟩ 6
    { Regs.empty with reboundCbs := [(Value.tok 0, [42])] }
    { instances := [], resolvedSet := [Value.tok 0], buildStack := [],
      withStack := [], counter := 1, events := [], swallowCount := 0 }
    (Value.tok 0) (Value.tok 0) false [42] (Value.obj 0 1 [])
    { instances := [], resolvedSet := [Value.tok 0], buildStack := [],
      withStack := [], counter := 2, events := [], swallowCount := 0 }
    (by decide) (by decide) (by decide) (by decide) (by decide)

/-- n-fold following of alias edges (the step function of the alias
graph). -/
def iterA (al : List (Value × Value)) : Nat → Value → Option Value
  | 0, x => some x
  | n + 1, x =>
    match alookup x al with
    | none => none
    | some y => iterA al n y

/-- Decidable acyclicity of the (finite) alias graph: no node with an
outgoing edge returns to itself within 1 to (number of edges) steps.  Any
directed cycle yields such a node and length, so this captures "the alias
graph contains no cycles". -/
def AcyclicB (al : List (Value × Value)) : Bool :=
  (al.map Prod.fst).all fun x =>
    (List.range al.length).all fun m => !(decide (iterA al (m + 1) x = some x))

theorem iterA_add (al : List (Value × Value)) :
    ∀ (m k : Nat) (x : Value),
      iterA al (m + k) x =
        (match iterA al m x with
         | none => none
         | some y => iterA al k y) := by
  intro m
  induction m with
  | zero =>
    intro k x
    simp [iterA]
  | succ m2 ih =>
    intro k x
    have : m2 + 1 + k = (m2 + k) + 1 := by omega
    rw [this]
    simp only [iterA]
    match hx : alookup x al with
    | none => simp
    | some y => exact ih k y

theorem alookup_mem_keys (al : List (Value × Value)) (x y : Value)
    (h : alookup x al = some y) : x ∈ al.map Prod.fst := by
  induction al with
  | nil => simp [alookup] at h
  | cons e rest ih =>
    obtain ⟨k, v⟩ := e
    by_cases hk : x = k
    · subst hk
      simp
    · simp only [alookup, hk, if_false] at h
      simp [ih h]

theorem getAliasF_err_kinds (al : List (Value × Value)) :
    ∀ (f : Nat) (x : Value) (e : Err), getAliasF al f x = .error e →
      e = .fuelOut ∨ e = .logicError := by
  intro f
  induction f with
  | zero =>
    intro x e h
    simp [getAliasF] at h
    exact Or.inl h.symm
  | succ m ih =>
    intro x e h
    simp only [getAliasF] at h
    match hx : alookup x al with
    | none => rw [hx] at h; cases h
    | some b =>
      rw [hx] at h
      by_cases hb : b = x
      · simp only [hb, if_true] at h
        cases h
        exact Or.inr rfl
      · simp only [hb, if_false] at h
        exact ih b e h

/-- Running out of fuel extracts an edge chain of that length. -/
theorem getAliasF_fuelOut_chain (al : List (Value × Value)) :
    ∀ (f : Nat) (x : Value), getAliasF al f x = .error .fuelOut →
      ∃ g : Nat → Value, g 0 = x ∧
        ∀ k, k < f → alookup (g k) al = some (g (k + 1)) := by
  intro f
  induction f with
  | zero =>
    intro x _
    exact ⟨fun _ => x, rfl, fun k hk => absurd hk (Nat.not_lt_zero k)⟩
  | succ m ih =>
    intro x h
    simp only [getAliasF] at h
    match hx : alookup x al with
    | none => rw [hx] at h; cases h
    | some b =>
      rw [hx] at h
      by_cases hb : b = x
      · simp [hb] at h
      · simp only [hb, if_false] at h
        obtain ⟨g2, hg0, hgs⟩ := ih b h
        refine ⟨fun k => match k with | 0 => x | k + 1 => g2 k, rfl, ?_⟩
        intro k hk
        match k with
        | 0 =>
          simpa [hg0] using hx
        | k + 1 =>
          exact hgs k (by omega)

/-- A chain following edges realizes the iterated step function. -/
theorem chain_iterA (al : List (Value × Value)) (g : Nat → Value) (f : Nat)
    (hgs : ∀ k, k < f → alookup (g k) al = some (g (k + 1))) :
    ∀ (m k : Nat), k + m ≤ f → iterA al m (g k) = some (g (k + m)) := by
  intro m
  induction m with
  | zero => intro k _; simp [iterA]
  | succ m2 ih =>
    intro k hkm
    simp only [iterA]
    rw [hgs k (by omega)]
    have := ih (k + 1) (by omega)
    simpa [show k + 1 + m2 = k + (m2 + 1) by omega] using this

/-- A `LogicError` from canonicalization exhibits a direct self-edge. -/
theorem getAliasF_logic_selfedge (al : List (Value × Value)) :
    ∀ (f : Nat) (x : Value), getAliasF al f x = .error .logicError →
      ∃ y, alookup y al = some y := by
  intro f
  induction f with
  | zero => intro x h; simp [getAliasF] at h
  | succ m ih =>
    intro x h
    simp only [getAliasF] at h
    match hx : alookup x al with
    | none => rw [hx] at h; cases h
    | some b =>
      rw [hx] at h
      by_cases hb : b = x
      · exact ⟨x, by rw [← hb] at hx ⊢; exact hx⟩
      · simp only [hb, if_false] at h
        exact ih b h

/-- On an acyclic alias graph, canonicalization with the standard fuel
always succeeds. -/
theorem getAliasE_total_of_acyclic (regs : Regs)
    (hacyc : AcyclicB regs.aliases = true) (x : Value) :
    ∃ r, Container.getAliasE regs x = .ok r := by
  set al := regs.aliases with hal
  have hall := List.all_eq_true.mp hacyc
  match he : Container.getAliasE regs x with
  | .ok r => exact ⟨r, rfl⟩
  | .error e =>
    exfalso
    have hek := getAliasF_err_kinds al (al.length + 1) x e he
    rcases hek with hfo | hlo
    · subst hfo
      obtain ⟨g, hg0, hgs⟩ := getAliasF_fuelOut_chain al (al.length + 1) x he
      -- the nodes g 0 .. g (al.length) all carry an outgoing edge
      have hmem : ∀ k : Fin (al.length + 1),
          g k ∈ (al.map Prod.fst).toFinset := by
        intro k
        have hk : (k : Nat) < al.length + 1 := k.isLt
        have := hgs k hk
        exact List.mem_toFinset.mpr (alookup_mem_keys al _ _ this)
      have hcard : ((al.map Prod.fst).toFinset).card <
          (Finset.univ : Finset (Fin (al.length + 1))).card := by
        calc ((al.map Prod.fst).toFinset).card
            ≤ (al.map Prod.fst).length := List.toFinset_card_le _
          _ = al.length := List.length_map _ _
          _ < al.length + 1 := Nat.lt_succ_self _
          _ = (Finset.univ : Finset (Fin (al.length + 1))).card := by
              simp
      obtain ⟨i, _, j, _, hij, hgij⟩ :=
        Finset.exists_ne_map_eq_of_card_lt_of_maps_to hcard
          (fun k _ => hmem k)
      -- order the duplicated indices
      rcases Nat.lt_or_ge (i : Nat) (j : Nat) with hlt | hge
      · have hcyc := chain_iterA al g (al.length + 1) hgs ((j : Nat) - (i : Nat))
          (i : Nat) (by omega)
        rw [show (i : Nat) + ((j : Nat) - (i : Nat)) = (j : Nat) by omega] at hcyc
        have hx := hall (g i) (List.mem_toFinset.mp (hmem i))
        have hx2 := List.all_eq_true.mp hx ((j : Nat) - (i : Nat) - 1)
          (List.mem_range.mpr (by have := j.isLt; omega))
        simp only [Bool.not_eq_true', decide_eq_false_iff_not] at hx2
        apply hx2
        rw [show (j : Nat) - (i : Nat) - 1 + 1 = (j : Nat) - (i : Nat) by
          have := Fin.val_ne_of_ne hij; omega]
        rw [hcyc, hgij]
      · have hlt2 : (j : Nat) < (i : Nat) := by
          have := Fin.val_ne_of_ne hij
          omega
        have hcyc := chain_iterA al g (al.length + 1) hgs ((i : Nat) - (j : Nat))
          (j : Nat) (by omega)
        rw [show (j : Nat) + ((i : Nat) - (j : Nat)) = (i : Nat) by omega] at hcyc
        have hx := hall (g j) (List.mem_toFinset.mp (hmem j))
        have hx2 := List.all_eq_true.mp hx ((i : Nat) - (j : Nat) - 1)
          (List.mem_range.mpr (by have := i.isLt; omega))
        simp only [Bool.not_eq_true', decide_eq_false_iff_not] at hx2
        apply hx2
        rw [show (i : Nat) - (j : Nat) - 1 + 1 = (i : Nat) - (j : Nat) by omega]
        rw [hcyc, ← hgij]
    · subst hlo
      obtain ⟨y, hy⟩ := getAliasF_logic_selfedge al (al.length + 1) x he
      have hmem := alookup_mem_keys al y y hy
      have hx := hall y hmem
      have hlen : 0 < al.length := by
        have := List.length_pos_of_mem hmem
        simpa using this
      have hx2 := List.all_eq_true.mp hx 0 (List.mem_range.mpr hlen)
      simp only [Bool.not_eq_true', decide_eq_false_iff_not] at hx2
      apply hx2
      simp [iterA, hy]

/-- C6: on an alias graph with no cycles, canonicalization through
`Container.getAlias` succeeds and is idempotent:
`canonicalize (canonicalize x) = canonicalize x`. -/
theorem claim_C6_canonicalize_idem (regs : Regs) (x : Value)
    (hacyc : AcyclicB regs.aliases = true) :
    (∃ r, Container.getAliasE regs x = .ok r ∧
      Container.getAliasE regs r = .ok r) ∧
    (Container.getAliasE regs x).bind (Container.getAliasE regs) =
      Container.getAliasE regs x := by
  obtain ⟨r, hr⟩ := getAliasE_total_of_acyclic regs hacyc x
  have hidem := getAliasE_idem regs x r hr
  refine ⟨⟨r, hr, hidem⟩, ?_⟩
  rw [hr]
  simpa [Except.bind] using hidem

/-- C6 witness: a two-edge acyclic chain canonicalizes idempotently. -/
theorem claim_C6_witness :
    (Container.getAliasE
        { Regs.empty with
            aliases := [(Value.strV "a", Value.strV "b"),
                        (Value.strV "b", Value.tok 0)] }
        (Value.strV "a")).bind
      (Container.getAliasE
        { Regs.empty with
            aliases := [(Value.strV "a", Value.strV "b"),
                        (Value.strV "b", Value.tok 0)] }) =
    Container.getAliasE
        { Regs.empty with
            aliases := [(Value.strV "a", Value.strV "b"),
                        (Value.strV "b", Value.tok 0)] }
        (Value.strV "a") :=
  (claim_C6_canonicalize_idem
    { Regs.empty with
        aliases := [(Value.strV "a", Value.strV "b"),
                    (Value.strV "b", Value.tok 0)] }
    (Value.strV "a") (by decide)).2

theorem lastParamOverride_push (d : Dyn) (p : Params) :
    Container.lastParamOverride { d with withStack := d.withStack ++ [p] } = p := by
  simp [Container.lastParamOverride]

theorem needsCtxB_false (regs : Regs) (d : Dyn) (canon : Value) (p : Params)
    (hctx : Container.getCtxConcrete regs d canon = none)
    (hp : p.empty = true) : Container.needsCtxB regs d canon p = false := by
  simp [Container.needsCtxB, hctx, hp]

theorem needsCtxB_nonempty (regs : Regs) (d : Dyn) (canon : Value)
    (p : Params) (hp : p.empty = false) :
    Container.needsCtxB regs d canon p = true := by
  simp [Container.needsCtxB, hp]

theorem getConcrete_binding (regs : Regs) (d : Dyn) (a : Value) (c : Conc)
    (sh : Bool) (hctx : Container.getCtxConcrete regs d a = none)
    (hb : alookup a regs.bindings = some (c, sh)) :
    Container.getConcrete regs d a = c := by
  simp [Container.getConcrete, hctx, hb]

theorem getConcrete_self (regs : Regs) (d : Dyn) (a : Value)
    (hctx : Container.getCtxConcrete regs d a = none)
    (hb : alookup a regs.bindings = none) :
    Container.getConcrete regs d a = .val a := by
  simp [Container.getConcrete, hctx, hb]

/-- The singleton fast path of `_resolve`: a cached instance with no
contextual build returns verbatim, with no state change at all. -/
theorem resolveStep_cached (env : Env) (regs : Regs) (mk : MkT) (bk : BkT)
    (abstract canon : Value) (p : Params) (d : Dyn) (v : Value)
    (hcanon : Container.getAliasE regs abstract = .ok canon)
    (hinst : alookup canon d.instances = some v)
    (hn : Container.needsCtxB regs d canon p = false) :
    Container.resolveStep env regs mk bk abstract p d = .ok v d := by
  simp [Container.resolveStep, hcanon, hinst, hn]

/-- When the fast path does not apply, `_resolve` pushes the parameter
frame and proceeds to the concrete. -/
theorem resolveStep_skip (env : Env) (regs : Regs) (mk : MkT) (bk : BkT)
    (abstract canon : Value) (p : Params) (d : Dyn)
    (hcanon : Container.getAliasE regs abstract = .ok canon)
    (hskip : alookup canon d.instances = none ∨
      Container.needsCtxB regs d canon p = true) :
    Container.resolveStep env regs mk bk abstract p d =
      (match Container.runConcrete env regs mk bk canon
          (Container.getConcrete regs { d with withStack := d.withStack ++ [p] } canon)
          { d with withStack := d.withStack ++ [p] } with
       | .err e d2 => .err e d2
       | .ok object d2 =>
          Container.finishResolve regs canon
            (Container.needsCtxB regs d canon p) object d2) := by
  rcases hskip with hi | ht
  · cases hn : Container.needsCtxB regs d canon p <;>
      simp [Container.resolveStep, hcanon, hi, hn]
  · cases hi : alookup canon d.instances <;>
      simp [Container.resolveStep, hcanon, hi, ht]

/-- `finishResolve` for an abstract with no alias edge and no extenders:
the built object passes through unchanged. -/
theorem finishResolve_noext (regs : Regs) (canon : Value) (nc : Bool)
    (object : Value) (dX : Dyn)
    (hA : alookup canon regs.aliases = none)
    (hE : alookup canon regs.extenders = none) :
    Container.finishResolve regs canon nc object dX = .ok object
      (let d3 := if Container.isSharedB regs dX canon && !nc then
          { dX with instances := aset canon object dX.instances }
        else dX
       let d4 := Container.fireResolvingD regs canon object d3
       { d4 with resolvedSet := sinsert canon d4.resolvedSet,
                 withStack := d4.withStack.dropLast }) := by
  have hext : Container.getExtendersE regs canon = .ok [] := by
    simp [Container.getExtendersE, getAliasE_notAliased regs canon hA, hE]
  simp [Container.finishResolve, hext]

/-- Resolving an unbound, unaliased, uncontextual, unextended class token
(when the fast path is skipped) always constructs a fresh object: one whose
creation stamp is at least the entry counter and below the exit counter. -/
theorem buildShape_C (env : Env) (regs : Regs) (ci : Nat) (ps : List PDesc)
    (hcls : alookup ci env.classes = some ps)
    (h2 : alookup (Value.tok ci) regs.aliases = none)
    (h4 : ∀ d', Container.getCtxConcrete regs d' (Value.tok ci) = none)
    (h6 : alookup (Value.tok ci) regs.bindings = none)
    (h9 : alookup (Value.tok ci) regs.extenders = none)
    (mk : MkT) (bk : BkT) (hmkM : MkMono mk) (hbkM : BkMono bk)
    (q : Params) (dC : Dyn) (v : Value) (dOut : Dyn)
    (hskip : alookup (Value.tok ci) dC.instances = none ∨ q.empty = false)
    (hres : Container.resolveStep env regs mk bk (Value.tok ci) q dC = .ok v dOut) :
    ∃ nonce args, v = Value.obj ci nonce args ∧ dC.counter ≤ nonce ∧
      nonce < dOut.counter := by
  have hcanon := getAliasE_notAliased regs (Value.tok ci) h2
  have hskip2 : alookup (Value.tok ci) dC.instances = none ∨
      Container.needsCtxB regs dC (Value.tok ci) q = true := by
    rcases hskip with h | h
    · exact Or.inl h
    · exact Or.inr (needsCtxB_nonempty regs dC (Value.tok ci) q h)
  rw [resolveStep_skip env regs mk bk (Value.tok ci) (Value.tok ci) q dC
    hcanon hskip2] at hres
  rw [getConcrete_self regs { dC with withStack := dC.withStack ++ [q] }
    (Value.tok ci) (h4 _) h6] at hres
  have hrc : Container.runConcrete env regs mk bk (Value.tok ci)
      (.val (Value.tok ci)) { dC with withStack := dC.withStack ++ [q] } =
      Container.buildCoreF env regs mk bk (Value.tok ci)
        { dC with withStack := dC.withStack ++ [q] } := by
    simp [Container.runConcrete, Container.buildF]
  rw [hrc] at hres
  simp only [Container.buildCoreF, hcls] at hres
  by_cases hps : ps.isEmpty = true
  · simp only [hps, if_true] at hres
    rw [finishResolve_noext regs (Value.tok ci) _ _ _ h2 h9] at hres
    obtain ⟨hv, hd⟩ := Res.ok.inj hres
    refine ⟨dC.counter, [], ?_, le_refl _, ?_⟩
    · exact hv.symm
    · rw [← hd]
      simp only [Container.fireResolvingD]
      split <;> simp
  · simp only [Bool.not_eq_true] at hps
    simp only [hps, Bool.false_eq_true, if_false] at hres
    cases hdeps : Container.resolveDepsF regs mk bk ps
        { dC with withStack := dC.withStack ++ [q],
                  buildStack := dC.buildStack ++ [Value.tok ci] } with
    | err e d2 =>
      simp only [hdeps] at hres
      cases hres
    | ok vs d2 =>
      simp only [hdeps] at hres
      rw [finishResolve_noext regs (Value.tok ci) _ _ _ h2 h9] at hres
      obtain ⟨hv, hd⟩ := Res.ok.inj hres
      have hmono := mono_resolveDepsF regs mk bk hmkM hbkM ps
        { dC with withStack := dC.withStack ++ [q],
                  buildStack := dC.buildStack ++ [Value.tok ci] }
      rw [hdeps] at hmono
      refine ⟨d2.counter, vs, hv.symm, ?_, ?_⟩
      · exact hmono.1
      · rw [← hd]
        simp only [Container.fireResolvingD]
        split <;> simp

/-- The first `make` of a shared binding A → C (A unaliased, uncontextual,
unextended, C a plain class, nothing cached yet): the result is a freshly
constructed instance of C, and it is stored in the singleton cache under
A. -/
theorem resolveShared_first (env : Env) (regs : Regs) (ci : Nat)
    (ps : List PDesc) (A : Value)
    (hcls : alookup ci env.classes = some ps)
    (h1 : alookup A regs.aliases = none)
    (h2 : alookup (Value.tok ci) regs.aliases = none)
    (h3 : ∀ d', Container.getCtxConcrete regs d' A = none)
    (h4 : ∀ d', Container.getCtxConcrete regs d' (Value.tok ci) = none)
    (h5 : alookup A regs.bindings = some (Conc.wrap A (Value.tok ci), true))
    (h6 : alookup (Value.tok ci) regs.bindings = none)
    (h7 : A ≠ Value.tok ci)
    (h8 : alookup A regs.extenders = none)
    (h9 : alookup (Value.tok ci) regs.extenders = none)
    (n : Nat) (d0 : Dyn) (v : Value) (dOut : Dyn)
    (h10 : alookup A d0.instances = none)
    (h11 : alookup (Value.tok ci) d0.instances = none)
    (hres : Container.resolve env regs n A (Params.arr []) d0 = .ok v dOut) :
    ∃ nonce args, v = Value.obj ci nonce args ∧ d0.counter ≤ nonce ∧
      nonce < dOut.counter ∧ alookup A dOut.instances = some v := by
  match n with
  | 0 => simp [Container.resolve, Container.runF] at hres
  | Nat.succ m =>
    have hres2 : Container.resolveStep env regs
        (fun a2 p2 => Container.runF env regs m (.inl (a2, p2)))
        (fun v2 => Container.runF env regs m (.inr v2)) A (Params.arr []) d0 =
        .ok v dOut := hres
    have hcanon := getAliasE_notAliased regs A h1
    have hn : Container.needsCtxB regs d0 A (Params.arr []) = false :=
      needsCtxB_false regs d0 A (Params.arr []) (h3 d0) rfl
    rw [resolveStep_skip env regs _ _ A A (Params.arr []) d0 hcanon
      (Or.inl h10)] at hres2
    rw [getConcrete_binding regs _ A (Conc.wrap A (Value.tok ci)) true
      (h3 _) h5] at hres2
    have hrc : Container.runConcrete env regs
        (fun a2 p2 => Container.runF env regs m (.inl (a2, p2)))
        (fun v2 => Container.runF env regs m (.inr v2)) A
        (Conc.wrap A (Value.tok ci))
        { d0 with withStack := d0.withStack ++ [Params.arr []] } =
        Container.runF env regs m (.inl (Value.tok ci, Params.arr []))
          { d0 with withStack := d0.withStack ++ [Params.arr []] } := by
      simp [Container.runConcrete, Container.buildF, h7, lastParamOverride_push]
    rw [hrc] at hres2
    cases hm : Container.runF env regs m (.inl (Value.tok ci, Params.arr []))
        { d0 with withStack := d0.withStack ++ [Params.arr []] } with
    | err e d2 =>
      simp only [hm] at hres2
      cases hres2
    | ok v2 d2 =>
      simp only [hm] at hres2
      rw [hn] at hres2
      rw [finishResolve_noext regs A false v2 d2 h1 h8] at hres2
      obtain ⟨hv, hd⟩ := Res.ok.inj hres2
      cases m with
      | zero => simp [Container.runF] at hm
      | succ m2 =>
        have hm2 : Container.resolveStep env regs
            (fun a2 p2 => Container.runF env regs m2 (.inl (a2, p2)))
            (fun v2 => Container.runF env regs m2 (.inr v2)) (Value.tok ci)
            (Params.arr [])
            { d0 with withStack := d0.withStack ++ [Params.arr []] } =
            .ok v2 d2 := hm
        obtain ⟨nonce, args, hvshape, hge, hlt⟩ := buildShape_C env regs ci ps
          hcls h2 h4 h6 h9 _ _
          (fun a p d3 => mono_runF env regs m2 (.inl (a, p)) d3)
          (fun w d3 => mono_runF env regs m2 (.inr w) d3)
          (Params.arr []) { d0 with withStack := d0.withStack ++ [Params.arr []] }
          v2 d2
          (Or.inl (show alookup (Value.tok ci)
            ({ d0 with withStack := d0.withStack ++ [Params.arr []] } : Dyn).instances
              = none from h11)) hm2
        have hsh : Container.isSharedB regs d2 A = true := by
          simp [Container.isSharedB, h5]
        refine ⟨nonce, args, ?_, hge, ?_, ?_⟩
        · rw [← hv, hvshape]
        · rw [← hd]
          simp only [Container.fireResolvingD]
          split <;> simpa using hlt
        · rw [← hd, ← hv]
          simp [Container.fireResolvingD, hsh, alookup_aset_self]

/-- A `make` of the same shared binding with an explicit non-empty
parameter set bypasses the cache and constructs a fresh instance of C. -/
theorem resolveShared_param (env : Env) (regs : Regs) (ci : Nat)
    (ps : List PDesc) (A : Value)
    (hcls : alookup ci env.classes = some ps)
    (h1 : alookup A regs.aliases = none)
    (h2 : alookup (Value.tok ci) regs.aliases = none)
    (h3 : ∀ d', Container.getCtxConcrete regs d' A = none)
    (h4 : ∀ d', Container.getCtxConcrete regs d' (Value.tok ci) = none)
    (h5 : alookup A regs.bindings = some (Conc.wrap A (Value.tok ci), true))
    (h6 : alookup (Value.tok ci) regs.bindings = none)
    (h7 : A ≠ Value.tok ci)
    (h8 : alookup A regs.extenders = none)
    (h9 : alookup (Value.tok ci) regs.extenders = none)
    (k : Nat) (dIn : Dyn) (q : Params) (v2 : Value) (dOut : Dyn)
    (hq : q.empty = false)
    (hres : Container.resolve env regs k A q dIn = .ok v2 dOut) :
    ∃ nonce args, v2 = Value.obj ci nonce args ∧ dIn.counter ≤ nonce := by
  match k with
  | 0 => simp [Container.resolve, Container.runF] at hres
  | Nat.succ m =>
    have hres2 : Container.resolveStep env regs
        (fun a2 p2 => Container.runF env regs m (.inl (a2, p2)))
        (fun w => Container.runF env regs m (.inr w)) A q dIn =
        .ok v2 dOut := hres
    have hcanon := getAliasE_notAliased regs A h1
    rw [resolveStep_skip env regs _ _ A A q dIn hcanon
      (Or.inr (needsCtxB_nonempty regs dIn A q hq))] at hres2
    rw [getConcrete_binding regs _ A (Conc.wrap A (Value.tok ci)) true
      (h3 _) h5] at hres2
    have hrc : Container.runConcrete env regs
        (fun a2 p2 => Container.runF env regs m (.inl (a2, p2)))
        (fun w => Container.runF env regs m (.inr w)) A
        (Conc.wrap A (Value.tok ci))
        { dIn with withStack := dIn.withStack ++ [q] } =
        Container.runF env regs m (.inl (Value.tok ci, q))
          { dIn with withStack := dIn.withStack ++ [q] } := by
      simp [Container.runConcrete, Container.buildF, h7, lastParamOverride_push]
    rw [hrc] at hres2
    cases hm : Container.runF env regs m (.inl (Value.tok ci, q))
        { dIn with withStack := dIn.withStack ++ [q] } with
    | err e d2 =>
      simp only [hm] at hres2
      cases hres2
    | ok v3 d2 =>
      simp only [hm] at hres2
      rw [finishResolve_noext regs A _ v3 d2 h1 h8] at hres2
      obtain ⟨hv, _⟩ := Res.ok.inj hres2
      cases m with
      | zero => simp [Container.runF] at hm
      | succ m2 =>
        have hm2 : Container.resolveStep env regs
            (fun a2 p2 => Container.runF env regs m2 (.inl (a2, p2)))
            (fun w => Container.runF env regs m2 (.inr w)) (Value.tok ci) q
            { dIn with withStack := dIn.withStack ++ [q] } =
            .ok v3 d2 := hm
        obtain ⟨nonce, args, hvshape, hge, _⟩ := buildShape_C env regs ci ps
          hcls h2 h4 h6 h9 _ _
          (fun a p d3 => mono_runF env regs m2 (.inl (a, p)) d3)
          (fun w d3 => mono_runF env regs m2 (.inr w) d3)
          q _ v3 d2 (Or.inr hq) hm2
        exact ⟨nonce, args, by rw [← hv, hvshape], hge⟩

theorem getCtxConcrete_empty (regs : Regs) (hc : regs.contextual = [])
    (ha : regs.abstractAliases = []) :
    ∀ (d' : Dyn) (a : Value), Container.getCtxConcrete regs d' a = none := by
  intro d' a
  have hf : ∀ b : Value, Container.findInCtx regs d' b = none := by
    intro b
    simp only [Container.findInCtx, hc]
    cases d'.buildStack.getLast? <;> simp [alookup]
  simp [Container.getCtxConcrete, hf, ha, alookup]

/-- C3: for a shared binding A → C (A unaliased, uncontextual, unextended,
C a plain class neither bound, aliased, contextual nor extended, nothing
cached yet), after a first `make A` yielding `v1`: every further `make A`
with no explicit parameters returns the identical cached instance `v1` with
the container state completely unchanged, and any `make(A, p)` with a
non-empty parameter set that succeeds produces a distinct, newly built
instance, even though A is shared. -/
theorem claim_C3_shared_singleton (env : Env) (regs : Regs) (ci : Nat)
    (ps : List PDesc) (A : Value)
    (hcls : alookup ci env.classes = some ps)
    (h1 : alookup A regs.aliases = none)
    (h2 : alookup (Value.tok ci) regs.aliases = none)
    (h3 : ∀ d', Container.getCtxConcrete regs d' A = none)
    (h4 : ∀ d', Container.getCtxConcrete regs d' (Value.tok ci) = none)
    (h5 : alookup A regs.bindings = some (Conc.wrap A (Value.tok ci), true))
    (h6 : alookup (Value.tok ci) regs.bindings = none)
    (h7 : A ≠ Value.tok ci)
    (h8 : alookup A regs.extenders = none)
    (h9 : alookup (Value.tok ci) regs.extenders = none)
    (n : Nat) (d : Dyn) (v1 : Value) (d1 : Dyn)
    (h10 : alookup A d.instances = none)
    (h11 : alookup (Value.tok ci) d.instances = none)
    (hmk1 : Container.make env regs n A d = .ok v1 d1) :
    (∀ m, Container.make env regs (m + 1) A d1 = .ok v1 d1) ∧
    (∀ (k : Nat) (q : Params) (v2 : Value) (d2 : Dyn), q.empty = false →
      Container.resolve env regs k A q d1 = .ok v2 d2 → v2 ≠ v1) := by
  obtain ⟨n1, args1, hshape, hge, hlt, hstore⟩ := resolveShared_first env regs
    ci ps A hcls h1 h2 h3 h4 h5 h6 h7 h8 h9 n d v1 d1 h10 h11 hmk1
  constructor
  · intro m
    have hcanon := getAliasE_notAliased regs A h1
    have hn : Container.needsCtxB regs d1 A (Params.arr []) = false :=
      needsCtxB_false regs d1 A (Params.arr []) (h3 d1) rfl
    exact resolveStep_cached env regs
      (fun a2 p2 => Container.runF env regs m (.inl (a2, p2)))
      (fun w => Container.runF env regs m (.inr w)) A A (Params.arr []) d1 v1
      hcanon hstore hn
  · intro k q v2 d2 hq hres
    obtain ⟨n2, args2, hshape2, hge2⟩ := resolveShared_param env regs ci ps A
      hcls h1 h2 h3 h4 h5 h6 h7 h8 h9 k d1 q v2 d2 hq hres
    rw [hshape, hshape2]
    intro heq
    simp only [Value.obj.injEq] at heq
    omega

/-- C3 witness: shared binding `tok 1 → tok 0`; the second plain `make`
returns the identical cached instance with the state unchanged, and a
parameterized `make` builds a distinct fresh instance. -/
theorem claim_C3_witness :
    Container.make ⟨[(0, [])]⟩
        { Regs.empty with
            bindings := [(Value.tok 1, (Conc.wrap (Value.tok 1) (Value.tok 0), true))] }
        7 (Value.tok 1)
        { instances := [(Value.tok 1, Value.obj 0 0 [])],
          resolvedSet := [Value.tok 0, Value.tok 1], buildStack := [],
          withStack := [], counter := 1, events := [], swallowCount := 0 } =
      .ok (Value.obj 0 0 [])
        { instances := [(Value.tok 1, Value.obj 0 0 [])],
          resolvedSet := [Value.tok 0, Value.tok 1], buildStack := [],
          withStack := [], counter := 1, events := [], swallowCount := 0 } ∧
    Value.obj 0 1 [] ≠ Value.obj 0 0 [] := by
  have h := claim_C3_shared_singleton ⟨[(0, [])]⟩
    { Regs.empty with
        bindings := [(Value.tok 1, (Conc.wrap (Value.tok 1) (Value.tok 0), true))] }
    0 [] (Value.tok 1) (by decide) (by decide) (by decide)
    (fun d' => getCtxConcrete_empty _ rfl rfl d' (Value.tok 1))
    (fun d' => getCtxConcrete_empty _ rfl rfl d' (Value.tok 0))
    (by decide) (by decide) (by decide) (by decide) (by decide)
    6 Dyn.empty (Value.obj 0 0 [])
    { instances := [(Value.tok 1, Value.obj 0 0 [])],
      resolvedSet := [Value.tok 0, Value.tok 1], buildStack := [],
      withStack := [], counter := 1, events := [], swallowCount := 0 }
    (by decide) (by decide) (by decide)
  refine ⟨h.1 6, ?_⟩
  exact h.2 8 (Params.objP [("x", Value.numV 1)]) (Value.obj 0 1 [])
    { instances := [(Value.tok 1, Value.obj 0 0 [])],
      resolvedSet := [Value.tok 0, Value.tok 1], buildStack := [],
      withStack := [], counter := 2, events := [], swallowCount := 0 }
    (by decide) (by decide)
